import Mathlib

/-!
# task-manager backend: request pipeline and server lifecycle

A shallow embedding of `backend/pkg/middleware` (`Use`, `GetRequestID`,
`countReadCloser`, `countingResponseWriter`, `BytesRead`, `RealIP`, `Logger`,
`Recover`, `gzipResponseWriter`, `shouldSkipCompression`, `GzipMiddleware`) and
of `backend/internal/server` (`Server.Start`).

Conventions.
* A Go `string` is a Lean `String`; the helpers below work on its list of
  characters by structural recursion.
* A Go `[]byte` is a `List UInt8`.
* `int` and `int64` values are `Int`; the places where the 64-bit range
  matters say so.
* An interface (`http.ResponseWriter`, `io.ReadCloser`) is a record of
  functions over an explicit state type; a pointer receiver becomes explicit
  state passing.
* A handler is polymorphic in the writer and body reader it is given, as
  `http.Handler` is polymorphic in the `http.ResponseWriter` it receives.
-/

set_option linter.unusedVariables false

namespace TaskManager

/-! ## Go values shared by both packages -/

/-- A Go `[]byte`. -/
abbrev Bytes := List UInt8

/-- A Go `error` value: a package-level sentinel such as `io.EOF`, compared by
identity; another leaf error carrying its message; or the result of
`fmt.Errorf("<text>: %w", err)`, which wraps `err` behind a text. -/
inductive GoError where
  | sentinel (name : String)
  | leaf (message : String)
  | wrapped (text : String) (err : GoError)
  deriving DecidableEq, Repr

/-! ## Package `strings` and `strconv`, on lists of characters -/

/-- The Go predicate `unicode.IsSpace`: the Latin-1 spaces
`\t \n \v \f \r`, space, U+0085, U+00A0, and the other code points with the
White_Space property. -/
def isSpace (c : Char) : Bool :=
  let n := c.toNat
  (9 ≤ n && n ≤ 13) || n == 32 || n == 0x85 || n == 0xA0 || n == 0x1680 ||
  (0x2000 ≤ n && n ≤ 0x200A) || n == 0x2028 || n == 0x2029 || n == 0x202F ||
  n == 0x205F || n == 0x3000

/-- The Go function `strings.TrimSpace`: all leading and trailing white space removed. -/
def TrimSpace (s : String) : String :=
  String.mk ((s.data.dropWhile isSpace).reverse.dropWhile isSpace).reverse

/-- The pieces of a character list between occurrences of `sep`; never empty. -/
def splitChars (sep : Char) : List Char → List (List Char)
  | [] => [[]]
  | c :: cs =>
    if c = sep then [] :: splitChars sep cs
    else
      match splitChars sep cs with
      | [] => [[c]]
      | p :: ps => (c :: p) :: ps

/-- The Go function `strings.Split(s, sep)` for a one-character separator. -/
def Split (s : String) (sep : Char) : List String :=
  (splitChars sep s.data).map String.mk

/-- The Go function `strings.HasPrefix`. -/
def HasPrefix (s pre : String) : Bool :=
  pre.data.isPrefixOf s.data

/-- Whether `sub` occurs as a contiguous block of `cs`. -/
def containsChars (sub : List Char) : List Char → Bool
  | [] => sub.isEmpty
  | c :: cs => sub.isPrefixOf (c :: cs) || containsChars sub cs

/-- The Go function `strings.Contains`. -/
def Contains (s sub : String) : Bool :=
  containsChars sub.data s.data

/-- The Go function `unicode.ToLower` as far as ASCII is concerned: `A`..`Z`
go to `a`..`z`, and the two non-ASCII code points whose lower case is an ASCII
letter, U+0130 and U+212A, go to `i` and `k`.  Every other character is left
as it is; its lower case is never an ASCII character, so tests against ASCII
text are not affected. -/
def toLowerChar (c : Char) : Char :=
  if 'A' ≤ c ∧ c ≤ 'Z' then Char.ofNat (c.toNat + 32)
  else if c.toNat = 0x130 then 'i'
  else if c.toNat = 0x212A then 'k'
  else c

/-- The Go function `strings.ToLower` (see `toLowerChar`). -/
def ToLower (s : String) : String :=
  String.mk (s.data.map toLowerChar)

/-- The value of a list of decimal digits, `none` if some character is not a digit. -/
def digitsValue : List Char → Nat → Option Nat
  | [], acc => some acc
  | c :: cs, acc =>
    if '0' ≤ c ∧ c ≤ '9' then digitsValue cs (acc * 10 + (c.toNat - 48)) else none

/-- The Go call `strconv.ParseInt(s, 10, 64)`: an optional sign followed by one
or more decimal digits, accepted when the value fits in an `int64`; `none`
stands for a non-nil error. -/
def ParseInt (s : String) : Option Int :=
  let body (cs : List Char) : Option Nat := if cs = [] then none else digitsValue cs 0
  match s.data with
  | [] => none
  | '-' :: cs =>
    match body cs with
    | some v => if v ≤ 2 ^ 63 then some (-(v : Int)) else none
    | none => none
  | '+' :: cs =>
    match body cs with
    | some v => if v < 2 ^ 63 then some (v : Int) else none
    | none => none
  | cs =>
    match body cs with
    | some v => if v < 2 ^ 63 then some (v : Int) else none
    | none => none

/-- The UTF-8 bytes of a string, as `[]byte(s)` gives them. -/
def utf8 (s : String) : Bytes :=
  s.data.flatMap String.utf8EncodeChar

/-! ## Package `net/http`: headers -/

/-- The characters allowed in a header field name (`validHeaderFieldByte`):
letters, digits and the punctuation of an RFC 7230 token. -/
def validHeaderFieldByte (c : Char) : Bool :=
  let n := c.toNat
  (48 ≤ n && n ≤ 57) || (65 ≤ n && n ≤ 90) || (97 ≤ n && n ≤ 122) ||
  n == 33 || (35 ≤ n && n ≤ 39) || n == 42 || n == 43 || n == 45 || n == 46 ||
  (94 ≤ n && n ≤ 96) || n == 124 || n == 126

/-- One pass of canonicalisation: upper case at the start and after a hyphen,
lower case elsewhere. -/
def canonChars : Bool → List Char → List Char
  | _, [] => []
  | upper, c :: cs =>
    let d :=
      if upper && ('a' ≤ c && c ≤ 'z') then Char.ofNat (c.toNat - 32)
      else if !upper && ('A' ≤ c && c ≤ 'Z') then Char.ofNat (c.toNat + 32)
      else c
    d :: canonChars (d == '-') cs

/-- The Go function `textproto.CanonicalMIMEHeaderKey`: a key made of valid
field bytes is put in canonical case; any other key is returned unchanged. -/
def CanonicalMIMEHeaderKey (s : String) : String :=
  if s.data.all validHeaderFieldByte then String.mk (canonChars true s.data) else s

/-- The Go type `http.Header`, a map from canonical key to its list of values. -/
structure Header where
  entries : List (String × List String)
  deriving DecidableEq, Repr

/-- All the values stored under a key (`h[CanonicalMIMEHeaderKey(key)]`). -/
def Header.Values (h : Header) (key : String) : List String :=
  (h.entries.lookup (CanonicalMIMEHeaderKey key)).getD []

/-- The Go method `Header.Get`: the first value stored under the key, or `""`. -/
def Header.Get (h : Header) (key : String) : String :=
  (h.Values key).headD ""

/-- The Go method `Header.Del`. -/
def Header.Del (h : Header) (key : String) : Header :=
  ⟨h.entries.filter (fun e => e.1 != CanonicalMIMEHeaderKey key)⟩

/-- The Go method `Header.Set`: the key now holds the single value. -/
def Header.Set (h : Header) (key value : String) : Header :=
  ⟨(CanonicalMIMEHeaderKey key, [value]) :: (h.Del key).entries⟩

/-- The Go method `Header.Add`: the value is appended to those of the key. -/
def Header.Add (h : Header) (key value : String) : Header :=
  ⟨(CanonicalMIMEHeaderKey key, h.Values key ++ [value]) :: (h.Del key).entries⟩

/-! ## Package `context` -/

/-- A value stored in a request context: the middleware stores a `requestID`
(a named string type) and a plain `string`. -/
inductive CtxValue where
  | requestID (id : String)
  | string (s : String)
  deriving DecidableEq, Repr

/-- A `context.Context`.  `values` is the chain of `WithValue` links, the most
recent first; the keys of this program are untyped strings.  `done` tells when
the context is cancelled: `some (t, e)` when `Done()` is closed from the
instant `t` on (in nanoseconds) and `Err()` is `e` from then on, `none` when it
never is. -/
structure Context where
  values : List (String × CtxValue)
  done : Option (Nat × GoError)
  deriving DecidableEq, Repr

/-- The Go function `context.WithValue(parent, key, val)`. -/
def Context.WithValue (parent : Context) (key : String) (val : CtxValue) : Context :=
  { parent with values := (key, val) :: parent.values }

/-- The Go method `ctx.Value(key)`: the value of the nearest link with that key. -/
def Context.Value (ctx : Context) (key : String) : Option CtxValue :=
  ctx.values.lookup key

/-- The Go function `GetRequestID` (`middleware.go`): the context value under
`"requestID"` when it has type `requestID`, the empty string otherwise. -/
def GetRequestID (ctx : Context) : String :=
  match ctx.Value "requestID" with
  | some (CtxValue.requestID id) => id
  | _ => ""

/-! ## Package `net/http`: requests, writers, handlers -/

/-- The fields of an `*http.Request` that the middleware reads.  `Path` is
`r.URL.Path` and `ctx` is `r.Context()`; the body is passed to a handler
separately, since it is an object with state. -/
structure Request where
  Method : String
  Path : String
  Header : TaskManager.Header
  RemoteAddr : String
  ctx : Context
  deriving DecidableEq, Repr

/-- The interface `http.ResponseWriter` over a writer state `σ`.  The Go method
`Header()` returns the header map itself, which callers then mutate; `Header`
reads that map and `setHeader` stores the mutated map back.  `Write` returns
the new state with the pair `(n, err)`. -/
structure ResponseWriter (σ : Type) where
  Header : σ → TaskManager.Header
  setHeader : σ → TaskManager.Header → σ
  WriteHeader : σ → Int → σ
  Write : σ → Bytes → σ × Int × Option GoError

/-- The interface `io.ReadCloser` over a reader state `ρ`.  `Read` takes the
length of the buffer `p` and returns the new state with the pair `(n, err)`. -/
structure ReadCloser (ρ : Type) where
  Read : ρ → Nat → ρ × Int × Option GoError
  Close : ρ → ρ × Option GoError

/-- Severity of a `slog` record. -/
inductive Level where
  | info
  | error
  deriving DecidableEq, Repr

/-- One attribute of a `slog` record: `slog.String`, `slog.Int`,
`slog.Duration` (nanoseconds) and `slog.Any` (the value as `%v` prints it). -/
inductive Attr where
  | str (key value : String)
  | int (key : String) (value : Int)
  | duration (key : String) (ns : Int)
  | any (key value : String)
  deriving DecidableEq, Repr

/-- A record handed to the default `slog` logger. -/
structure LogRecord where
  level : Level
  msg : String
  attrs : List Attr
  deriving DecidableEq, Repr

/-- What one call of `ServeHTTP` leaves behind: the state of the writer and of
the request body, the log records emitted, and the panic value (as `%v` prints
it) if the call ended in a panic rather than by returning. -/
structure Outcome (σ ρ : Type) where
  w : σ
  body : Option ρ
  logs : List LogRecord
  panicked : Option String

/-- An `http.Handler`: given any response writer and any request body (`none`
when `r.Body` is nil), it serves the request. -/
def Handler : Type 1 :=
  (σ ρ : Type) → ResponseWriter σ → ReadCloser ρ → σ → Option ρ → Request → Outcome σ ρ

/-- The type `Middleware` of `middleware.go`: `func(http.Handler) http.Handler`. -/
abbrev Middleware : Type 1 := Handler → Handler

/-- One step of an application handler, seen from the pipeline: a mutation of
the header map obtained from `w.Header()`, a call of `w.WriteHeader` or
`w.Write`, a call of `r.Body.Read` with a buffer of the given length, a call of
`r.Body.Close`, or a panic. -/
inductive Op where
  | headerSet (key value : String)
  | headerAdd (key value : String)
  | headerDel (key : String)
  | writeHeader (status : Int)
  | write (b : Bytes)
  | read (len : Nat)
  | closeBody
  | panic (value : String)
  deriving DecidableEq, Repr

/-- The text of the run-time panic raised by a method call on a nil `r.Body`. -/
def nilDereference : String :=
  "runtime error: invalid memory address or nil pointer dereference"

/-- Runs the steps of a handler in order against a writer and a body; a panic
abandons the remaining steps. -/
def runOps {σ ρ : Type} (W : ResponseWriter σ) (R : ReadCloser ρ) :
    List Op → σ → Option ρ → Outcome σ ρ
  | [], w, b => ⟨w, b, [], none⟩
  | Op.headerSet k v :: ops, w, b => runOps W R ops (W.setHeader w ((W.Header w).Set k v)) b
  | Op.headerAdd k v :: ops, w, b => runOps W R ops (W.setHeader w ((W.Header w).Add k v)) b
  | Op.headerDel k :: ops, w, b => runOps W R ops (W.setHeader w ((W.Header w).Del k)) b
  | Op.writeHeader s :: ops, w, b => runOps W R ops (W.WriteHeader w s) b
  | Op.write p :: ops, w, b => runOps W R ops (W.Write w p).1 b
  | Op.read n :: ops, w, some r => runOps W R ops w (some (R.Read r n).1)
  | Op.read _ :: _, w, none => ⟨w, none, [], some nilDereference⟩
  | Op.closeBody :: ops, w, some r => runOps W R ops w (some (R.Close r).1)
  | Op.closeBody :: _, w, none => ⟨w, none, [], some nilDereference⟩
  | Op.panic v :: _, w, b => ⟨w, b, [], some v⟩

/-- The handler that performs the steps `script r` on the request `r`. -/
def scripted (script : Request → List Op) : Handler :=
  fun _ _ W R w b r => runOps W R (script r) w b

/-- A call received by the transport writer: `WriteHeader` with the status and
the header map as it stood at that moment, or `Write` with the bytes. -/
inductive Call where
  | WriteHeader (status : Int) (header : Header)
  | Write (b : Bytes)
  deriving DecidableEq, Repr

/-- The writer underneath the pipeline, which records what it receives: the
header map and the calls in order.  It accepts every write in full. -/
structure Recorder where
  header : Header
  calls : List Call
  deriving DecidableEq, Repr

/-- The `http.ResponseWriter` methods of `Recorder`. -/
def Recorder.writer : ResponseWriter Recorder where
  Header := fun w => w.header
  setHeader := fun w h => { w with header := h }
  WriteHeader := fun w s => { w with calls := w.calls ++ [Call.WriteHeader s w.header] }
  Write := fun w b => ({ w with calls := w.calls ++ [Call.Write b] }, (b.length : Int), none)

/-- A fresh `Recorder`: no header, no call. -/
def Recorder.new : Recorder := ⟨⟨[]⟩, []⟩

/-- The bytes a list of calls carries, in order. -/
def Call.bytes : List Call → Bytes
  | [] => []
  | Call.Write b :: cs => b ++ Call.bytes cs
  | Call.WriteHeader _ _ :: cs => Call.bytes cs

/-- The statuses a list of calls carries, in order. -/
def Call.statuses : List Call → List Int
  | [] => []
  | Call.WriteHeader s _ :: cs => s :: Call.statuses cs
  | Call.Write _ :: cs => Call.statuses cs

/-- All the bytes the recorder received through `Write`, in order. -/
def Recorder.body (w : Recorder) : Bytes :=
  Call.bytes w.calls

/-- The Go error `io.EOF`. -/
def EOF : GoError := GoError.sentinel "io.EOF"

/-- A request body holding `remaining` unread bytes that hands out at most
`chunk` bytes per `Read` (a body arriving in pieces). -/
structure ChunkedBody where
  remaining : Nat
  chunk : Nat
  deriving DecidableEq, Repr

/-- The `io.ReadCloser` methods of `ChunkedBody`: `Read` returns
`min(len(p), chunk, remaining)` bytes, and `(0, io.EOF)` once nothing is left. -/
def ChunkedBody.reader : ReadCloser ChunkedBody where
  Read := fun r len =>
    if r.remaining = 0 then (r, 0, some EOF)
    else
      let n := min (min len r.chunk) r.remaining
      ({ r with remaining := r.remaining - n }, (n : Int), none)
  Close := fun r => (r, none)

/-! ## Metering wrappers (`middleware.go`) -/

/-- The Go struct `countReadCloser`.  The total `n` is an `int64`; it is kept
as an integer here, a body never reaching `2^63` bytes. -/
structure countReadCloser (ρ : Type) where
  rc : ρ
  n : Int

/-- The Go method `(*countReadCloser).Read`. -/
def countReadCloser.Read {ρ : Type} (R : ReadCloser ρ) (c : countReadCloser ρ) (p : Nat) :
    countReadCloser ρ × Int × Option GoError :=
  let (rc, n, err) := R.Read c.rc p
  ({ rc := rc, n := c.n + n }, n, err)

/-- The Go method `(*countReadCloser).Close`. -/
def countReadCloser.Close {ρ : Type} (R : ReadCloser ρ) (c : countReadCloser ρ) :
    countReadCloser ρ × Option GoError :=
  let (rc, err) := R.Close c.rc
  ({ c with rc := rc }, err)

/-- The type `*countReadCloser` as an `io.ReadCloser`. -/
def countReadCloser.reader {ρ : Type} (R : ReadCloser ρ) : ReadCloser (countReadCloser ρ) where
  Read := countReadCloser.Read R
  Close := countReadCloser.Close R

/-- The Go struct `countingResponseWriter`; the embedded `http.ResponseWriter`
is the field `ResponseWriter`. -/
structure countingResponseWriter (σ : Type) where
  ResponseWriter : σ
  status : Int
  n : Int

/-- The Go constant `http.StatusOK`. -/
def StatusOK : Int := 200

/-- The Go constant `http.StatusInternalServerError`. -/
def StatusInternalServerError : Int := 500

/-- The Go method `(*countingResponseWriter).Header`. -/
def countingResponseWriter.Header {σ : Type} (W : TaskManager.ResponseWriter σ)
    (w : countingResponseWriter σ) : TaskManager.Header :=
  W.Header w.ResponseWriter

/-- The Go method `(*countingResponseWriter).WriteHeader`. -/
def countingResponseWriter.WriteHeader {σ : Type} (W : TaskManager.ResponseWriter σ)
    (w : countingResponseWriter σ) (status : Int) : countingResponseWriter σ :=
  { w with status := status, ResponseWriter := W.WriteHeader w.ResponseWriter status }

/-- The Go method `(*countingResponseWriter).Write`. -/
def countingResponseWriter.Write {σ : Type} (W : TaskManager.ResponseWriter σ)
    (w : countingResponseWriter σ) (b : Bytes) : countingResponseWriter σ × Int × Option GoError :=
  let status := if w.status = 0 then StatusOK else w.status
  let (inner, n, err) := W.Write w.ResponseWriter b
  ({ ResponseWriter := inner, status := status, n := w.n + n }, n, err)

/-- The type `*countingResponseWriter` as an `http.ResponseWriter`. -/
def countingResponseWriter.writer {σ : Type} (W : TaskManager.ResponseWriter σ) :
    TaskManager.ResponseWriter (countingResponseWriter σ) where
  Header := countingResponseWriter.Header W
  setHeader := fun w h => { w with ResponseWriter := W.setHeader w.ResponseWriter h }
  WriteHeader := countingResponseWriter.WriteHeader W
  Write := countingResponseWriter.Write W

/-! ## Byte scaling (`middleware.go`, `BytesRead`)

The function works in `float64`.  Every `float64` that occurs is a non-negative
rational `m / d` with `m` an integer of at most 53 significant bits times a
power of two and `d` a power of two, so the arithmetic is carried out exactly on
naturals: conversion of an `int64` rounds to 53 significant bits (ties to
even), multiplication and division by 1024 are exact, and `%.2f` prints the
exact value rounded to hundredths (ties to even), as `strconv` does. -/

/-- The number of binary digits of `n`, for `n < 2 ^ fuel`. -/
def bitLength : Nat → Nat → Nat
  | 0, _ => 0
  | fuel + 1, n => if n = 0 then 0 else bitLength fuel (n / 2) + 1

/-- The nearest integer to `num / den`, ties going to the even one. -/
def roundHalfEven (num den : Nat) : Nat :=
  let q := num / den
  let r := num % den
  if den < 2 * r ∨ (2 * r = den ∧ q % 2 = 1) then q + 1 else q

/-- The Go conversion `float64(b)` of a non-negative `int64`: `b` itself when it
has at most 53 binary digits, otherwise `b` rounded to 53 significant bits. -/
def float64OfNat (n : Nat) : Nat :=
  let e := bitLength 64 n - 53
  roundHalfEven n (2 ^ e) * 2 ^ e

/-- Two decimal digits, with a leading zero below ten. -/
def twoDigits (n : Nat) : String :=
  if n < 10 then "0" ++ Nat.repr n else Nat.repr n

/-- The Go call `fmt.Sprintf("%.2f", x)` for the non-negative value `x = num / den`. -/
def fmtFixed2 (num den : Nat) : String :=
  let h := roundHalfEven (100 * num) den
  Nat.repr (h / 100) ++ "." ++ twoDigits (h % 100)

/-- The Go call `fmt.Sprintf("%d", b)`. -/
def fmtInt (b : Int) : String :=
  if b < 0 then "-" ++ Nat.repr b.natAbs else Nat.repr b.natAbs

/-- The Go constant `unit` of `BytesRead`. -/
def unit : Int := 1024

/-- The loop `for n := b / unit; n >= unit; n /= unit { div *= unit; exp++ }`
of `BytesRead`, started from `n`, `div` and `exp`; it returns the final `div`
and `exp`.  The first argument bounds the number of iterations; an `int64`
needs at most six. -/
def BytesRead.loop : Nat → Int → Nat → Nat → Nat × Nat
  | 0, _, div, exp => (div, exp)
  | fuel + 1, n, div, exp =>
    if n ≥ unit then BytesRead.loop fuel (Int.tdiv n unit) (div * 1024) (exp + 1)
    else (div, exp)

/-- The suffix table of `BytesRead`. -/
def suffixes : List String := ["KB", "MB", "GB", "TB", "PB"]

/-- The Go function `BytesRead` (`middleware.go`). -/
def BytesRead (b : Int) : String :=
  if b < 0 then "0B"
  else if b < unit then fmtInt b ++ "B"
  else
    let (div, exp) := BytesRead.loop 64 (Int.tdiv b unit) 1024 0
    let val := (float64OfNat b.toNat, div)
    let suffix := if exp < suffixes.length then suffixes.getD exp "KB" else "KB"
    fmtFixed2 val.1 val.2 ++ suffix

/-! ## Client address (`logger.go`, `RealIP`) -/

/-- The position of the first `c` in a list. -/
def indexByte (c : Char) : List Char → Option Nat
  | [] => none
  | d :: ds => if d = c then some 0 else (indexByte c ds).map (· + 1)

/-- The position of the last `c` in a list. -/
def lastIndexByte (c : Char) : List Char → Option Nat
  | [] => none
  | d :: ds =>
    match lastIndexByte c ds with
    | some i => some (i + 1)
    | none => if d = c then some 0 else none

/-- The reasons for which `net.SplitHostPort` fails. -/
inductive AddrError where
  | missingPort
  | tooManyColons
  | missingBracket
  | unexpectedOpen
  | unexpectedClose
  deriving DecidableEq, Repr

/-- The Go function `net.SplitHostPort`: the port starts after the last colon;
a host in square brackets must end right before that colon; a bare host
contains no colon; no further bracket may occur. -/
def SplitHostPort (hostport : String) : Except AddrError (String × String) :=
  let s := hostport.data
  match lastIndexByte ':' s with
  | none => Except.error AddrError.missingPort
  | some i =>
    let finish (host : List Char) (j k : Nat) : Except AddrError (String × String) :=
      if (indexByte '[' (s.drop j)).isSome then Except.error AddrError.unexpectedOpen
      else if (indexByte ']' (s.drop k)).isSome then Except.error AddrError.unexpectedClose
      else Except.ok (String.mk host, String.mk (s.drop (i + 1)))
    if s.head? = some '[' then
      match indexByte ']' s with
      | none => Except.error AddrError.missingBracket
      | some e =>
        if e + 1 = s.length then Except.error AddrError.missingPort
        else if e + 1 = i then finish ((s.take e).drop 1) 1 (e + 1)
        else if s.get? (e + 1) = some ':' then Except.error AddrError.tooManyColons
        else Except.error AddrError.missingPort
    else
      let host := s.take i
      if (indexByte ':' host).isSome then Except.error AddrError.tooManyColons
      else finish host 0 0

/-- The Go function `RealIP` (`logger.go`). -/
def RealIP (r : Request) : String :=
  let ip := TrimSpace (r.Header.Get "X-Real-IP")
  if ip ≠ "" then ip
  else
    let fallback : String :=
      match SplitHostPort r.RemoteAddr with
      | Except.error _ => r.RemoteAddr
      | Except.ok (host, _) => host
    let xff := r.Header.Get "X-Forwarded-For"
    if xff ≠ "" then
      let parts := Split xff ','
      if parts.length > 0 then TrimSpace (parts.headD "") else fallback
    else fallback

/-! ## Request logging (`logger.go`, `Logger`) -/

/-- What `Logger` takes from its environment for one request: the string
`uuid.New().String()` and the duration `time.Since(start)` at the moment the
record is written. -/
structure LoggerEnv where
  uuid : String
  elapsed : Int
  deriving DecidableEq, Repr

/-- The Go function `Logger` (`logger.go`), statement by statement.  A panic of
`next` leaves through `Logger`, so nothing after the call of `next` runs. -/
def Logger (env : LoggerEnv) (next : Handler) : Handler :=
  fun σ ρ W R w body r =>
    let id := env.uuid
    let ctx := r.ctx.WithValue "requestID" (CtxValue.requestID id)
    let ctx := r.ctx.WithValue "real_ip" (CtxValue.string (RealIP r))
    let w := W.setHeader w ((W.Header w).Set "X-Request-ID" id)
    let w :=
      if HasPrefix r.Path "/api/" then W.setHeader w ((W.Header w).Set "Cache-Control" "no-store")
      else W.setHeader w ((W.Header w).Set "Cache-Control" "public, max-age=31536000")
    let counter : Option (countReadCloser ρ) := body.map (fun rc => { rc := rc, n := 0 })
    let cw : countingResponseWriter σ := { ResponseWriter := w, status := 0, n := 0 }
    let bytesReceived : Int :=
      match counter with
      | some c => c.n
      | none => 0
    let bytesReceived : Int :=
      if bytesReceived = 0 then
        let cl := TrimSpace (r.Header.Get "Content-Length")
        if cl ≠ "" then
          match ParseInt cl with
          | some v => v
          | none => bytesReceived
        else bytesReceived
      else bytesReceived
    let out := next (countingResponseWriter σ) (countReadCloser ρ)
      (countingResponseWriter.writer W) (countReadCloser.reader R) cw counter { r with ctx := ctx }
    match out.panicked with
    | some v =>
      { w := out.w.ResponseWriter, body := out.body.map (fun c => c.rc), logs := out.logs,
        panicked := some v }
    | none =>
      let bytesSent := out.w.n
      let status := if out.w.status = 0 then StatusOK else out.w.status
      let origin := r.Header.Get "Origin"
      let realIP := RealIP r
      let record : LogRecord :=
        { level := Level.info, msg := "handled requests",
          attrs := [
            Attr.str "id" id,
            Attr.str "method" r.Method,
            Attr.str "path" r.Path,
            Attr.int "status" status,
            Attr.duration "duration" env.elapsed,
            Attr.str "bytes_received" (BytesRead bytesReceived),
            Attr.str "bytes_received_human" (BytesRead bytesReceived),
            Attr.str "bytes_sent" (BytesRead bytesSent),
            Attr.str "bytes_sent_human" (BytesRead bytesSent),
            Attr.str "origin" origin,
            Attr.str "real_ip" realIP] }
      { w := out.w.ResponseWriter, body := out.body.map (fun c => c.rc),
        logs := out.logs ++ [record], panicked := none }

/-! ## Panic containment (`recovery.go`, `Recover`) -/

/-- The Go function `http.Error(w, error, code)`: it deletes `Content-Length`,
sets `Content-Type` and `X-Content-Type-Options`, writes the status and then
the text followed by a newline. -/
def httpError {σ : Type} (W : ResponseWriter σ) (w : σ) (error : String) (code : Int) : σ :=
  let h := W.Header w
  let h := h.Del "Content-Length"
  let h := h.Set "Content-Type" "text/plain; charset=utf-8"
  let h := h.Set "X-Content-Type-Options" "nosniff"
  let w := W.setHeader w h
  let w := W.WriteHeader w code
  (W.Write w (utf8 (error ++ "\n"))).1

/-- The Go function `Recover` (`recovery.go`): the deferred function runs when
`next` has returned or panicked; `recover()` is non-nil exactly in the second
case. -/
def Recover (next : Handler) : Handler :=
  fun σ ρ W R w body r =>
    let out := next σ ρ W R w body r
    match out.panicked with
    | some rec =>
      let id := GetRequestID r.ctx
      let record : LogRecord :=
        { level := Level.error, msg := "server panic recovered",
          attrs := [Attr.str "id" id, Attr.any "error" rec] }
      { w := httpError W out.w ("server panicked with error: " ++ rec) StatusInternalServerError,
        body := out.body, logs := out.logs ++ [record], panicked := none }
    | none => out

/-! ## Compression (`gzip.go`)

Package `compress/gzip` is a library outside the repository.  A `gzip.Writer`
writes to the underlying writer while the handler runs: the gzip header at the
first `Write`, compressed blocks whenever its buffer fills, the rest and the
trailer at `Close`.  Which bytes go out at which call is fixed by the data
written so far.  The library enters through that behaviour and its contract:
all the bytes emitted up to and including `Close` are a gzip stream for the
data written, and a reader gives that data back. -/

/-- All the bytes a writer emits for the writes `ps` made after the writes
`hist`, when `chunks hist p` are the pieces it hands to the underlying writer
on the write `p` made after the writes `hist`. -/
def emittedBy (chunks : List Bytes → Bytes → List Bytes) : List Bytes → List Bytes → Bytes
  | _, [] => []
  | hist, p :: ps => (chunks hist p).flatten ++ emittedBy chunks (hist ++ [p]) ps

/-- The contract of `compress/gzip`.  `chunks hist p` are the pieces a
`gzip.Writer` writes to the underlying writer, one `Write` call each, when `p`
is written to it after the writes `hist`; `closeChunks hist` are the pieces it
writes when it is closed after the writes `hist`; `decode` is a `gzip.Reader`
read to its end, `none` standing for an error.  Everything emitted for a
sequence of writes followed by `Close` decodes to the data written.  A gzip
stream is never empty (its header alone takes ten bytes), so the empty input
does not decode. -/
structure GzipCodec where
  chunks : List Bytes → Bytes → List Bytes
  closeChunks : List Bytes → List Bytes
  decode : Bytes → Option Bytes
  decode_stream : ∀ ws : List Bytes,
    decode (emittedBy chunks [] ws ++ (closeChunks ws).flatten) = some ws.flatten
  decode_nil : decode [] = none

/-- The complete stream a `gzip.Writer` emits for the writes `ws` and `Close`. -/
def GzipCodec.stream (C : GzipCodec) (ws : List Bytes) : Bytes :=
  emittedBy C.chunks [] ws ++ (C.closeChunks ws).flatten

/-- A small codec satisfying the contract: each write is passed on as it is,
and `Close` ends the stream with the two magic bytes of gzip. -/
def GzipCodec.framed : GzipCodec where
  chunks := fun _ p => [p]
  closeChunks := fun _ => [[0x1f, 0x8b]]
  decode := fun stream =>
    match stream.reverse with
    | 0x8b :: 0x1f :: data => some data.reverse
    | _ => none
  decode_stream := by
    intro ws
    have h : ∀ (ps hist : List Bytes),
        emittedBy (fun _ p => [p]) hist ps = ps.flatten := by
      intro ps
      induction ps with
      | nil => intro hist; rfl
      | cons p ps ih => intro hist; simp [emittedBy, ih]
    simp [h]
  decode_nil := rfl

/-- The Go constant `gzip.DefaultCompression`. -/
def DefaultCompression : Int := -1

/-- A `*gzip.Writer` on the underlying writer: the writes made to it so far,
whether it is closed, and the error it has met (`z.err`), which it returns from
then on. -/
structure gzipWriter where
  written : List Bytes
  closed : Bool
  err : Option GoError
  deriving DecidableEq, Repr

/-- The Go function `gzip.NewWriterLevel`: it fails exactly for a level outside
`gzip.HuffmanOnly .. gzip.BestCompression`, that is outside `-2 .. 9`. -/
def NewWriterLevel (level : Int) : Option gzipWriter :=
  if level < -2 ∨ level > 9 then none else some ⟨[], false, none⟩

/-- Writes pieces to a writer one after the other and stops at the first error. -/
def writeChunks {σ : Type} (W : ResponseWriter σ) : List Bytes → σ → σ × Option GoError
  | [], w => (w, none)
  | c :: cs, w =>
    match (W.Write w c).2.2 with
    | some e => ((W.Write w c).1, some e)
    | none => writeChunks W cs (W.Write w c).1

/-- The Go method `(*gzip.Writer).Write` on the underlying writer in state
`inner`: after an error it returns `(0, z.err)`; otherwise it writes its pieces
to the underlying writer, and returns `(len(p), nil)`, or `(0, err)` with the
error of the underlying writer. -/
def gzipWriter.Write {σ : Type} (C : GzipCodec) (W : ResponseWriter σ) (z : gzipWriter)
    (inner : σ) (p : Bytes) : gzipWriter × σ × Int × Option GoError :=
  match z.err with
  | some e => (z, inner, 0, some e)
  | none =>
    match (writeChunks W (C.chunks z.written p) inner).2 with
    | some e => ({ z with err := some e }, (writeChunks W (C.chunks z.written p) inner).1, 0, some e)
    | none =>
      ({ z with written := z.written ++ [p] }, (writeChunks W (C.chunks z.written p) inner).1,
        (p.length : Int), none)

/-- The Go method `(*gzip.Writer).Close`: after an error it returns `z.err`; a
second call does nothing; otherwise it writes what remains of the stream to
the underlying writer and returns the error of that. -/
def gzipWriter.Close {σ : Type} (C : GzipCodec) (W : ResponseWriter σ) (z : gzipWriter)
    (inner : σ) : gzipWriter × σ × Option GoError :=
  match z.err with
  | some e => (z, inner, some e)
  | none =>
    if z.closed then (z, inner, none)
    else
      ({ z with closed := true, err := (writeChunks W (C.closeChunks z.written) inner).2 },
        (writeChunks W (C.closeChunks z.written) inner).1,
        (writeChunks W (C.closeChunks z.written) inner).2)

/-- The Go struct `gzipResponseWriter`; the embedded `http.ResponseWriter` is the
field `ResponseWriter`, which is also the writer the `gzip.Writer` writes to. -/
structure gzipResponseWriter (σ : Type) where
  ResponseWriter : σ
  gz : Option gzipWriter
  compress : Bool
  wroteHeader : Bool
  status : Int

/-- The list `skips` of `shouldSkipCompression`. -/
def skips : List String :=
  ["image/", "video/", "audio/", "application/zip", "application/x-gzip",
   "application/gzip", "application/x-compressed", "application/x-rar-compressed"]

/-- The Go function `shouldSkipCompression` (`gzip.go`). -/
def shouldSkipCompression (contentType : String) : Bool :=
  if contentType = "" then false
  else
    let ct := ToLower contentType
    skips.any (fun s => HasPrefix ct s)

/-- The Go method `(*gzipResponseWriter).WriteHeader`. -/
def gzipResponseWriter.WriteHeader {σ : Type} (W : TaskManager.ResponseWriter σ)
    (w : gzipResponseWriter σ) (status : Int) : gzipResponseWriter σ :=
  if w.wroteHeader then w
  else
    let w := { w with wroteHeader := true, status := status }
    let ct := (W.Header w.ResponseWriter).Get "Content-Type"
    if shouldSkipCompression ct then
      { w with compress := false, ResponseWriter := W.WriteHeader w.ResponseWriter status }
    else
      let inner := w.ResponseWriter
      let inner := W.setHeader inner ((W.Header inner).Set "Content-Encoding" "gzip")
      let inner := W.setHeader inner ((W.Header inner).Del "Content-Length")
      let inner := W.setHeader inner ((W.Header inner).Add "Vary" "Accept-Encoding")
      match NewWriterLevel DefaultCompression with
      | none =>
        { w with compress := false, ResponseWriter := W.WriteHeader inner status }
      | some gz =>
        { w with gz := some gz, compress := true, ResponseWriter := W.WriteHeader inner status }

/-- The Go method `(*gzipResponseWriter).Write`: with compression on it returns
what `w.gz.Write(b)` returns, otherwise what the underlying `Write` returns. -/
def gzipResponseWriter.Write {σ : Type} (C : GzipCodec) (W : TaskManager.ResponseWriter σ)
    (w : gzipResponseWriter σ) (b : Bytes) : gzipResponseWriter σ × Int × Option GoError :=
  let w := if !w.wroteHeader then gzipResponseWriter.WriteHeader W w StatusOK else w
  match w.compress, w.gz with
  | true, some gz =>
    ({ w with gz := some (gzipWriter.Write C W gz w.ResponseWriter b).1,
              ResponseWriter := (gzipWriter.Write C W gz w.ResponseWriter b).2.1 },
      (gzipWriter.Write C W gz w.ResponseWriter b).2.2.1,
      (gzipWriter.Write C W gz w.ResponseWriter b).2.2.2)
  | _, _ =>
    let (inner, n, err) := W.Write w.ResponseWriter b
    ({ w with ResponseWriter := inner }, n, err)

/-- The Go method `(*gzipResponseWriter).Close`: it returns what `w.gz.Close()`
returns when the `gzip.Writer` exists, nil otherwise. -/
def gzipResponseWriter.Close {σ : Type} (C : GzipCodec) (W : TaskManager.ResponseWriter σ)
    (w : gzipResponseWriter σ) : gzipResponseWriter σ × Option GoError :=
  match w.gz with
  | some gz =>
    ({ w with gz := some (gzipWriter.Close C W gz w.ResponseWriter).1,
              ResponseWriter := (gzipWriter.Close C W gz w.ResponseWriter).2.1 },
      (gzipWriter.Close C W gz w.ResponseWriter).2.2)
  | none => (w, none)

/-- The type `*gzipResponseWriter` as an `http.ResponseWriter`; `Header` is the
method of the embedded writer. -/
def gzipResponseWriter.writer {σ : Type} (C : GzipCodec) (W : TaskManager.ResponseWriter σ) :
    TaskManager.ResponseWriter (gzipResponseWriter σ) where
  Header := fun w => W.Header w.ResponseWriter
  setHeader := fun w h => { w with ResponseWriter := W.setHeader w.ResponseWriter h }
  WriteHeader := gzipResponseWriter.WriteHeader W
  Write := gzipResponseWriter.Write C W

/-- The Go constant `http.MethodHead`. -/
def MethodHead : String := "HEAD"

/-- The Go function `GzipMiddleware` (`gzip.go`).  The deferred `Close` runs
when `next` has returned and also when it has panicked. -/
def GzipMiddleware (C : GzipCodec) (next : Handler) : Handler :=
  fun σ ρ W R w body r =>
    if !Contains (r.Header.Get "Accept-Encoding") "gzip" then next σ ρ W R w body r
    else if r.Method = MethodHead then next σ ρ W R w body r
    else
      let gzw : gzipResponseWriter σ :=
        { ResponseWriter := w, gz := none, compress := true, wroteHeader := false, status := 0 }
      let out := next (gzipResponseWriter σ) ρ (gzipResponseWriter.writer C W) R gzw body r
      let closed := gzipResponseWriter.Close C W out.w
      { w := closed.1.ResponseWriter, body := out.body, logs := out.logs,
        panicked := out.panicked }

/-! ## Server lifecycle (`server.go`, `Server.Start`) -/

/-- The Go error `http.ErrServerClosed`. -/
def ErrServerClosed : GoError := GoError.sentinel "http.ErrServerClosed"

/-- The Go error `context.Canceled`. -/
def Canceled : GoError := GoError.sentinel "context.Canceled"

/-- The Go error `context.DeadlineExceeded`. -/
def DeadlineExceeded : GoError := GoError.sentinel "context.DeadlineExceeded"

/-- The Go constant `time.Second`, in nanoseconds. -/
def Second : Nat := 1000000000

/-- Whether `ctx.Done()` is closed at the instant `now`. -/
def Context.isDone (ctx : Context) (now : Nat) : Bool :=
  match ctx.done with
  | some (t, _) => decide (t ≤ now)
  | none => false

/-- The value of `ctx.Err()` at the instant `now`. -/
def Context.Err (ctx : Context) (now : Nat) : Option GoError :=
  match ctx.done with
  | some (t, e) => if t ≤ now then some e else none
  | none => none

/-- The Go function `context.WithTimeout(parent, timeout)` called at the instant
`now`: the child is done as soon as its parent is, with the error of the
parent, and otherwise when the timeout has run, with `DeadlineExceeded`. -/
def WithTimeout (parent : Context) (now timeout : Nat) : Context :=
  match parent.done with
  | some (t, e) =>
    if t ≤ now + timeout then { parent with done := some (t, e) }
    else { parent with done := some (now + timeout, DeadlineExceeded) }
  | none => { parent with done := some (now + timeout, DeadlineExceeded) }

/-- The Go method `(*http.Server).Shutdown(ctx)` called at the instant `now`,
when the connections in flight become idle at the instant `idleAt`: it returns
nil as soon as every connection is idle, and the error of the context if the
context is done before that.  The result is the instant of return with the
error. -/
def Shutdown (ctx : Context) (now idleAt : Nat) : Nat × Option GoError :=
  if idleAt ≤ now then (now, none)
  else
    match ctx.done with
    | some (t, e) => if t < idleAt then (max t now, some e) else (idleAt, none)
    | none => (idleAt, none)

/-- Which case of the `select` in `Start` fires. -/
inductive Race where
  | cancelled
  | acceptLoopDone
  deriving DecidableEq, Repr

/-- The goroutine that runs the accept loop: what it sends on `sErr`, given the
error `ListenAndServe` returned. -/
def acceptLoop (listenErr : GoError) : Option GoError :=
  if listenErr = ErrServerClosed then none else some listenErr

/-- The context that `Start` passes to `server.Shutdown`, created at the
instant `now` from the context `ctx` that `Start` received. -/
def shutdownCtx (ctx : Context) (now : Nat) : Context :=
  WithTimeout ctx now (15 * Second)

/-- The Go method `(*Server).Start` (`server.go`).  `connectErr` is the error of
`db.Connect`; `race` tells which case of the `select` fires and `now` when;
`listenErr` is the error `ListenAndServe` returns; `shutdown` is
`server.Shutdown` as the environment answers it. -/
def Server.Start (ctx : Context) (connectErr : Option GoError) (race : Race) (now : Nat)
    (listenErr : GoError) (shutdown : Context → Option GoError) : Option GoError :=
  match connectErr with
  | some err => some (GoError.wrapped "failed to connect to database" err)
  | none =>
    match race with
    | Race.cancelled =>
      match shutdown (shutdownCtx ctx now) with
      | some err => some (GoError.wrapped "server shutdown failed" err)
      | none =>
        match acceptLoop listenErr with
        | some err => some err
        | none => none
    | Race.acceptLoopDone =>
      match acceptLoop listenErr with
      | some err => some (GoError.wrapped "listen and serve failed" err)
      | none => none

/-! ## Pipeline composer (`middleware.go`, `Use`) -/

/-- The Go function `Use(next, m...)`: it ranges over `slices.Backward(m)`,
that is over `m` from its last element to its first, replacing `next` by
`x(next)` at each step, and returns the final `next`. -/
def Use {H : Type u} (next : H) (m : List (H → H)) : H :=
  m.reverse.foldl (fun next x => x next) next

/-- An order-recording decorator: it appends `pre` before calling the wrapped
handler and `post` after it returns.  Handlers are trace transformers here. -/
def recording (pre post : String) (next : List String → List String) :
    List String → List String :=
  fun t => next (t ++ [pre]) ++ [post]

/-! ## Notions used in the statements -/

/-- Runs a handler for one request against the recording writer `w` and the
chunked body `body`. -/
def serve (h : Handler) (w : Recorder) (body : Option ChunkedBody) (r : Request) :
    Outcome Recorder ChunkedBody :=
  h Recorder ChunkedBody Recorder.writer ChunkedBody.reader w body r

/-- The status of the first header commit of a list of steps: the code of the
first `WriteHeader`, or 200 when a `Write` comes before any `WriteHeader`. -/
def firstCommitStatus : List Op → Option Int
  | [] => none
  | Op.writeHeader s :: _ => some s
  | Op.write _ :: _ => some StatusOK
  | _ :: ops => firstCommitStatus ops

/-- The specification of `BytesRead b` for `b ≥ 1024`, in its own words, with
`k` the largest integer such that `1024 ^ k ≤ b`: the exact quotient
`b / 1024 ^ k` printed with two decimals, followed by the `k`-th suffix of the
table; `none` when the table has no `k`-th suffix. -/
def scaledAsClaimed (b k : Nat) : Option String :=
  (suffixes.get? (k - 1)).map (fun s => fmtFixed2 b (1024 ^ k) ++ s)

/-- The same with the quotient taken from `float64(b)` instead of `b`. -/
def scaled (b k : Nat) : Option String :=
  (suffixes.get? (k - 1)).map (fun s => fmtFixed2 (float64OfNat b) (1024 ^ k) ++ s)

/-- Whether the request declares gzip the way `GzipMiddleware` tests it: the
first `Accept-Encoding` value contains `gzip`. -/
def acceptsGzip (r : Request) : Bool :=
  Contains (r.Header.Get "Accept-Encoding") "gzip"

/-- The wrapper that `GzipMiddleware` creates around the writer `w`. -/
def gzipResponseWriter.fresh {σ : Type} (w : σ) : gzipResponseWriter σ :=
  { ResponseWriter := w, gz := none, compress := true, wroteHeader := false, status := 0 }

/-- Whether compression is active: the test under which `Write` hands the bytes
to the `gzip.Writer`. -/
def gzipResponseWriter.active {σ : Type} (w : gzipResponseWriter σ) : Bool :=
  w.compress && w.gz.isSome

/-- The three header changes made when compression is chosen. -/
def gzipHeaders (h : Header) : Header :=
  ((h.Set "Content-Encoding" "gzip").Del "Content-Length").Add "Vary" "Accept-Encoding"

/-- The steps that act on the response: header mutations, `WriteHeader`, `Write`. -/
def Op.isResponseOp : Op → Bool
  | Op.headerSet _ _ => true
  | Op.headerAdd _ _ => true
  | Op.headerDel _ => true
  | Op.writeHeader _ => true
  | Op.write _ => true
  | _ => false

/-- The concatenation of the bytes written by a list of steps, in order. -/
def payload : List Op → Bytes
  | [] => []
  | Op.write b :: ops => b ++ payload ops
  | _ :: ops => payload ops

/-- The byte strings written by a list of steps, one per `Write`, in order. -/
def writes : List Op → List Bytes
  | [] => []
  | Op.write b :: ops => b :: writes ops
  | _ :: ops => writes ops

/-- The header map at the first header commit (`WriteHeader` or `Write`) of a
list of steps run from the header map `h`; `none` when no step commits. -/
def headerAtCommit (h : Header) : List Op → Option Header
  | [] => none
  | Op.headerSet k v :: ops => headerAtCommit (h.Set k v) ops
  | Op.headerAdd k v :: ops => headerAtCommit (h.Add k v) ops
  | Op.headerDel k :: ops => headerAtCommit (h.Del k) ops
  | Op.writeHeader _ :: _ => some h
  | Op.write _ :: _ => some h
  | _ :: ops => headerAtCommit h ops

/-- A plain `GET /api/tasks` request from `192.0.2.1`, with an empty context
that is never cancelled. -/
def sampleRequest : Request :=
  { Method := "GET", Path := "/api/tasks", Header := ⟨[]⟩, RemoteAddr := "192.0.2.1:4711",
    ctx := ⟨[], none⟩ }

/-- The length a request announces: its `Content-Length` header, trimmed, when
it parses as an `int64`; 0 otherwise. -/
def announcedLength (r : Request) : Int :=
  if TrimSpace (r.Header.Get "Content-Length") ≠ "" then
    (ParseInt (TrimSpace (r.Header.Get "Content-Length"))).getD 0
  else 0

/-- The same request declaring `Accept-Encoding: gzip`. -/
def gzipRequest : Request :=
  { sampleRequest with Header := (Header.mk []).Set "Accept-Encoding" "gzip" }

/-- A request whose `Accept-Encoding` refuses gzip: `deflate, gzip;q=0`. -/
def refusesGzipRequest : Request :=
  { sampleRequest with Header := (Header.mk []).Set "Accept-Encoding" "deflate, gzip;q=0" }

/-- A request that accepts gzip, written in upper case: `Accept-Encoding: GZIP`. -/
def upperCaseGzipRequest : Request :=
  { sampleRequest with Header := (Header.mk []).Set "Accept-Encoding" "GZIP" }

/-- A request that accepts gzip in a second `Accept-Encoding` header line, the
first one being `deflate`. -/
def secondLineGzipRequest : Request :=
  { sampleRequest with
    Header := ((Header.mk []).Add "Accept-Encoding" "deflate").Add "Accept-Encoding" "gzip" }

/-- A handler that answers `hi` as `text/plain`. -/
def plainHi : Handler :=
  scripted (fun _ => [Op.headerSet "Content-Type" "text/plain", Op.write (utf8 "hi")])

/-- A context with no value, cancelled at the instant 0. -/
def cancelledAtZero : Context := ⟨[], some (0, Canceled)⟩

/-- The error of a failed bind, as `ListenAndServe` returns it. -/
def bindError : GoError := GoError.leaf "listen tcp :8080: bind: address already in use"

/-- The status of the response as `net/http` sends it, given the calls the
transport writer received: the header is committed by the first `WriteHeader`,
or with 200 by a `Write` that comes first; later `WriteHeader` calls have no
effect.  `none` when nothing was committed. -/
def Call.status : List Call → Option Int
  | [] => none
  | Call.WriteHeader s _ :: _ => some s
  | Call.Write _ :: _ => some StatusOK

/-- The status of the response the recorder stands for. -/
def Recorder.status (w : Recorder) : Option Int :=
  Call.status w.calls

/-- The text `Recover` passes to `http.Error` for the panic value `v`. -/
def panicSummary (v : String) : String :=
  "server panicked with error: " ++ v

/-- The header map after the three changes `http.Error` makes. -/
def errorHeaders (h : Header) : Header :=
  ((h.Del "Content-Length").Set "Content-Type" "text/plain; charset=utf-8").Set
    "X-Content-Type-Options" "nosniff"

/-- A sequence of `Read` calls, given by the lengths of the buffers, made on a
reader one after the other: the final state and the pairs `(n, err)` returned,
in order. -/
def readAll {ρ : Type} (R : ReadCloser ρ) : List Nat → ρ → ρ × List (Int × Option GoError)
  | [], r => (r, [])
  | p :: ps, r =>
    ((readAll R ps (R.Read r p).1).1, (R.Read r p).2 :: (readAll R ps (R.Read r p).1).2)

/-- A sequence of `Write` calls made on a writer one after the other: the final
state and the pairs `(n, err)` returned, in order. -/
def writeAll {σ : Type} (W : ResponseWriter σ) : List Bytes → σ → σ × List (Int × Option GoError)
  | [], w => (w, [])
  | b :: bs, w =>
    ((writeAll W bs (W.Write w b).1).1, (W.Write w b).2 :: (writeAll W bs (W.Write w b).1).2)

/-- The sum of the counts `n` of a list of returned pairs. -/
def sumN : List (Int × Option GoError) → Int
  | [] => 0
  | (n, _) :: rest => n + sumN rest

/-- The total size of a list of byte strings. -/
def totalSize : List Bytes → Nat
  | [] => 0
  | b :: bs => b.length + totalSize bs

/-! ## Theorems -/

/-- C1: for every terminal handler `h` and every list of decorators,
`Use h [d1, ..., dn]` is `d1 (d2 (... (dn h)))` (the right fold of application),
so the first-listed decorator is the outermost wrapper, and with no decorator
`Use` returns `h` itself; for order-recording decorators the first one records
its entry first and its exit last. -/
theorem Use_first_listed_outermost :
    (∀ (H : Type u) (h : H) (ds : List (H → H)),
      Use h ds = ds.foldr (fun d acc => d acc) h) ∧
    (∀ (H : Type u) (h : H), Use h [] = h) ∧
    (∀ (H : Type u) (h : H) (d : H → H) (ds : List (H → H)),
      Use h (d :: ds) = d (Use h ds)) ∧
    (∀ (pre post : String) (ds : List ((List String → List String) → List String → List String))
        (h : List String → List String) (t : List String),
      Use h (recording pre post :: ds) t = (Use h ds (t ++ [pre])) ++ [post]) := by
  have key : ∀ (H : Type u) (h : H) (ds : List (H → H)),
      Use h ds = ds.foldr (fun d acc => d acc) h := by
    intro H h ds
    unfold Use
    rw [List.foldl_reverse]
  have key0 : ∀ (H : Type) (h : H) (ds : List (H → H)),
      Use h ds = ds.foldr (fun d acc => d acc) h := by
    intro H h ds
    unfold Use
    rw [List.foldl_reverse]
  refine ⟨key, ?_, ?_, ?_⟩
  · intro H h
    rfl
  · intro H h d ds
    rw [key, key]
    rfl
  · intro pre post ds h t
    rw [key0, key0]
    rfl

/-- C2 (the code departs from it): with `Recover` inside `Logger`, whatever
identifier `Logger` generates and sets as `X-Request-ID`, the identifier that
`Recover` reads with `GetRequestID` and logs for a panicking handler is the
empty string: `Logger` builds the context holding `"real_ip"` from
`r.Context()` again, so the link holding `"requestID"` is not passed on. -/
theorem Recover_logs_empty_request_id :
    ∀ (uuid panicValue : String),
      (serve (Use (scripted (fun _ => [Op.panic panicValue])) [Logger ⟨uuid, 0⟩, Recover])
          Recorder.new none sampleRequest).logs.head?
        = some ⟨Level.error, "server panic recovered",
            [Attr.str "id" "", Attr.any "error" panicValue]⟩ ∧
      (serve (Use (scripted (fun _ => [Op.panic panicValue])) [Logger ⟨uuid, 0⟩, Recover])
          Recorder.new none sampleRequest).w.header.Get "X-Request-ID" = uuid := by
  intro uuid panicValue
  constructor
  · rfl
  · rfl

/-- C3 (the code departs from it): when the cancellation signal has fired, the
context `Start` hands to `server.Shutdown` is derived from the cancelled
context and is therefore already done at the moment of the call; with a request
still in flight for one more second the graceful stop fails at once with
`context.Canceled` and `Start` returns the wrapped shutdown error, fifteen
seconds early.  A timeout context derived from a context that is not cancelled
does last its fifteen seconds. -/
theorem Start_shutdown_context_already_done :
    (shutdownCtx cancelledAtZero 0).isDone 0 = true ∧
    (shutdownCtx cancelledAtZero 0).Err 0 = some Canceled ∧
    Shutdown (shutdownCtx cancelledAtZero 0) 0 Second = (0, some Canceled) ∧
    Server.Start cancelledAtZero none Race.cancelled 0 ErrServerClosed
        (fun c => (Shutdown c 0 Second).2)
      = some (GoError.wrapped "server shutdown failed" Canceled) ∧
    (WithTimeout ⟨[], none⟩ 0 (15 * Second)).isDone (15 * Second - 1) = false ∧
    Shutdown (WithTimeout ⟨[], none⟩ 0 (15 * Second)) 0 Second = (Second, none) := by
  decide

/-- C4 (the code departs from it): on the cancellation path, when the graceful
stop succeeds (no connection is in flight) and the accept loop has ended with an
error other than `http.ErrServerClosed`, here a failed bind, `Start` returns
that error as it is, not wrapped; the other case of the `select` wraps the same
error as `listen and serve failed`. -/
theorem Start_cancellation_path_returns_bare_listener_error :
    Shutdown (shutdownCtx cancelledAtZero 0) 0 0 = (0, none) ∧
    Server.Start cancelledAtZero none Race.cancelled 0 bindError
        (fun c => (Shutdown c 0 0).2)
      = some bindError ∧
    Server.Start cancelledAtZero none Race.acceptLoopDone 0 bindError
        (fun c => (Shutdown c 0 0).2)
      = some (GoError.wrapped "listen and serve failed" bindError) ∧
    Server.Start cancelledAtZero none Race.cancelled 0 ErrServerClosed
        (fun c => (Shutdown c 0 0).2)
      = none := by
  decide

/-- C5 (the code departs from it): `countingResponseWriter` records the status
of the latest `WriteHeader`, not of the first header commit.  After a `Write`
followed by `WriteHeader(500)` the first commit carries 200, which is what the
transport receives first, yet the writer records 500 and `Logger` logs 500;
after `WriteHeader(404)` and `WriteHeader(200)` it records 200. -/
theorem countingResponseWriter_records_last_status :
    firstCommitStatus [Op.write [104, 105], Op.writeHeader 500] = some 200 ∧
    (runOps (countingResponseWriter.writer Recorder.writer) ChunkedBody.reader
        [Op.write [104, 105], Op.writeHeader 500] ⟨Recorder.new, 0, 0⟩ none).w.status = 500 ∧
    Call.statuses (runOps (countingResponseWriter.writer Recorder.writer) ChunkedBody.reader
        [Op.write [104, 105], Op.writeHeader 500] ⟨Recorder.new, 0, 0⟩ none).w.ResponseWriter.calls
      = [500] ∧
    (serve (Logger ⟨"5f0c", 0⟩ (scripted (fun _ => [Op.write [104, 105], Op.writeHeader 500])))
        Recorder.new none sampleRequest).logs.map (fun l => l.attrs.get? 3)
      = [some (Attr.int "status" 500)] ∧
    firstCommitStatus [Op.writeHeader 404, Op.writeHeader 200] = some 404 ∧
    (runOps (countingResponseWriter.writer Recorder.writer) ChunkedBody.reader
        [Op.writeHeader 404, Op.writeHeader 200] ⟨Recorder.new, 0, 0⟩ none).w.status = 200 := by
  decide

/-- C6 (the code departs from it): `Logger` computes the bytes-received value
before it calls the wrapped handler, when the counter still holds 0.  For a
five-byte body without `Content-Length`, read in full in three partial reads
(the counter then holds 5), the record says `0B`; for a request announcing
`Content-Length: 100` whose handler reads nothing, the record says `100B`. -/
theorem Logger_bytes_received_ignores_reads :
    ((runOps (countingResponseWriter.writer Recorder.writer)
        (countReadCloser.reader ChunkedBody.reader) [Op.read 2, Op.read 2, Op.read 2]
        ⟨Recorder.new, 0, 0⟩ (some ⟨⟨5, 2⟩, 0⟩)).body.map (fun c => (c.n, c.rc.remaining)))
      = some (5, 0) ∧
    (serve (Logger ⟨"5f0c", 0⟩ (scripted (fun _ => [Op.read 2, Op.read 2, Op.read 2])))
        Recorder.new (some ⟨5, 2⟩) sampleRequest).logs.map (fun l => l.attrs.get? 5)
      = [some (Attr.str "bytes_received" "0B")] ∧
    (serve (Logger ⟨"5f0c", 0⟩ (scripted (fun _ => [Op.read 2, Op.read 2, Op.read 2])))
        Recorder.new (some ⟨5, 2⟩) sampleRequest).body = some ⟨0, 2⟩ ∧
    BytesRead 5 = "5B" ∧
    (serve (Logger ⟨"5f0c", 0⟩ (scripted (fun _ => [])))
        Recorder.new (some ⟨100, 2⟩)
        { sampleRequest with Header := (Header.mk []).Set "Content-Length" "100" }).logs.map
          (fun l => l.attrs.get? 5)
      = [some (Attr.str "bytes_received" "100B")] := by
  decide

/-- C7 (the code departs from it): for a request whose `X-Real-IP` is absent and
whose `X-Forwarded-For` is `" , 10.0.0.1"`, the first entry is blank after
trimming, yet `RealIP` returns that blank entry, the empty string, and not the
host `192.0.2.1` of `RemoteAddr`; with `X-Forwarded-For` absent it does return
the host. -/
theorem RealIP_blank_forwarded_entry_returned :
    TrimSpace (sampleRequest.Header.Get "X-Real-IP") = "" ∧
    TrimSpace ((Split " , 10.0.0.1" ',').headD "") = "" ∧
    (SplitHostPort "192.0.2.1:4711").toOption = some ("192.0.2.1", "4711") ∧
    RealIP { sampleRequest with
      Header := (Header.mk []).Set "X-Forwarded-For" " , 10.0.0.1" } = "" ∧
    RealIP sampleRequest = "192.0.2.1" := by
  decide

/-! ### Lifecycle, client address and logging: general facts -/

/-- A context derived by `shutdownCtx` from a context that is already done is
itself already done, with the same error. -/
theorem shutdownCtx_done_of_done (ctx : Context) (now : Nat) (h : ctx.isDone now = true) :
    (shutdownCtx ctx now).isDone now = true ∧ (shutdownCtx ctx now).Err now = ctx.Err now := by
  obtain ⟨values, done⟩ := ctx
  cases done with
  | none => simp [Context.isDone] at h
  | some p =>
    obtain ⟨t, e⟩ := p
    have ht : t ≤ now := by simpa [Context.isDone] using h
    have ht2 : t ≤ now + 15 * Second := by omega
    simp [shutdownCtx, WithTimeout, Context.isDone, Context.Err, ht, ht2]

/-- `Start` returns nil exactly when the database connection succeeded, the
accept loop ended with `http.ErrServerClosed` and, on the cancellation path,
the graceful stop succeeded. -/
theorem Start_eq_none_iff (ctx : Context) (connectErr : Option GoError) (race : Race) (now : Nat)
    (listenErr : GoError) (shutdown : Context → Option GoError) :
    Server.Start ctx connectErr race now listenErr shutdown = none ↔
      connectErr = none ∧ listenErr = ErrServerClosed ∧
      (race = Race.cancelled → shutdown (shutdownCtx ctx now) = none) := by
  cases connectErr with
  | some e => simp [Server.Start]
  | none =>
    cases race with
    | cancelled =>
      cases hs : shutdown (shutdownCtx ctx now) with
      | some e => simp [Server.Start, hs]
      | none =>
        by_cases hl : listenErr = ErrServerClosed
        · simp [Server.Start, hs, acceptLoop, hl]
        · simp [Server.Start, hs, acceptLoop, hl]
    | acceptLoopDone =>
      by_cases hl : listenErr = ErrServerClosed
      · simp [Server.Start, acceptLoop, hl]
      · simp [Server.Start, acceptLoop, hl]

/-- The errors `Start` returns after a successful database connection: the
wrapped shutdown error when the graceful stop fails; otherwise, for a listener
error other than `http.ErrServerClosed`, that error wrapped when the accept loop
finished first and bare on the cancellation path. -/
theorem Start_errors (ctx : Context) (now : Nat) (listenErr : GoError)
    (shutdown : Context → Option GoError) (hl : listenErr ≠ ErrServerClosed) :
    Server.Start ctx none Race.acceptLoopDone now listenErr shutdown
      = some (GoError.wrapped "listen and serve failed" listenErr) ∧
    (shutdown (shutdownCtx ctx now) = none →
      Server.Start ctx none Race.cancelled now listenErr shutdown = some listenErr) ∧
    (∀ e, shutdown (shutdownCtx ctx now) = some e →
      Server.Start ctx none Race.cancelled now listenErr shutdown
        = some (GoError.wrapped "server shutdown failed" e)) := by
  refine ⟨?_, ?_, ?_⟩
  · simp [Server.Start, acceptLoop, hl]
  · intro hs
    simp [Server.Start, acceptLoop, hl, hs]
  · intro e hs
    simp [Server.Start, hs]

/-- Splitting never gives an empty list. -/
theorem splitChars_ne_nil (sep : Char) (cs : List Char) : splitChars sep cs ≠ [] := by
  induction cs with
  | nil => simp [splitChars]
  | cons c cs ih =>
    unfold splitChars
    split
    · simp
    · split <;> simp

/-- When `X-Real-IP` is blank and `X-Forwarded-For` is not the empty string,
`RealIP` returns the first entry of `X-Forwarded-For`, trimmed, whatever it is. -/
theorem RealIP_of_forwarded (r : Request) (h1 : TrimSpace (r.Header.Get "X-Real-IP") = "")
    (h2 : r.Header.Get "X-Forwarded-For" ≠ "") :
    RealIP r = TrimSpace ((Split (r.Header.Get "X-Forwarded-For") ',').headD "") := by
  have hlen : (Split (r.Header.Get "X-Forwarded-For") ',').length > 0 := by
    unfold Split
    rw [List.length_map]
    exact List.length_pos.mpr (splitChars_ne_nil _ _)
  unfold RealIP
  simp only [h1, ne_eq, not_true_eq_false, if_false, h2, not_false_eq_true, if_true, hlen]

/-- Whatever the wrapped handler does, provided it does not panic, the last
record `Logger` writes renders as bytes received the length the request
announces in `Content-Length`, or 0. -/
theorem Logger_bytes_received_of_header (env : LoggerEnv) (next : Handler) (w : Recorder)
    (body : Option ChunkedBody) (r : Request)
    (h : (serve (Logger env next) w body r).panicked = none) :
    ∃ rec, (serve (Logger env next) w body r).logs.getLast? = some rec ∧
      rec.attrs.get? 5 = some (Attr.str "bytes_received" (BytesRead (announcedLength r))) := by
  unfold serve Logger at h ⊢
  simp only at h ⊢
  split at h
  · simp at h
  · rename_i hp
    simp only [hp]
    refine ⟨_, List.getLast?_concat _, ?_⟩
    cases body <;> simp [announcedLength] <;> split <;>
      first
      | rfl
      | (cases ParseInt (TrimSpace (r.Header.Get "Content-Length")) <;> rfl)

/-! ### `BytesRead` -/

/-- The loop of `BytesRead` started at `m` with `1024 ^ j ≤ m < 1024 ^ (j + 1)`
runs `j` times, given at least `j + 1` units of fuel. -/
theorem BytesRead_loop_eq (j : Nat) : ∀ (fuel m div exp : Nat), j < fuel → 1024 ^ j ≤ m →
    m < 1024 ^ (j + 1) →
    BytesRead.loop fuel (m : Int) div exp = (div * 1024 ^ j, exp + j) := by
  induction j with
  | zero =>
    intro fuel m div exp hf hlo hhi
    obtain ⟨f, rfl⟩ : ∃ f, fuel = f + 1 := ⟨fuel - 1, by omega⟩
    have hlt : ¬ ((m : Int) ≥ unit) := by
      simp only [unit]; omega
    simp [BytesRead.loop, hlt]
  | succ j ih =>
    intro fuel m div exp hf hlo hhi
    obtain ⟨f, rfl⟩ : ∃ f, fuel = f + 1 := ⟨fuel - 1, by omega⟩
    have h1024 : 1024 ≤ m := by
      have hp : 1024 ^ 1 ≤ 1024 ^ (j + 1) := Nat.pow_le_pow_right (by norm_num) (by omega)
      omega
    have hge : (m : Int) ≥ unit := by
      simp only [unit]; omega
    have hdiv : Int.tdiv (m : Int) unit = ((m / 1024 : Nat) : Int) := rfl
    have hlo2 : 1024 ^ j ≤ m / 1024 := by
      rw [Nat.le_div_iff_mul_le (by norm_num)]
      rw [pow_succ] at hlo
      exact hlo
    have hhi2 : m / 1024 < 1024 ^ (j + 1) := by
      rw [Nat.div_lt_iff_lt_mul (by norm_num)]
      rw [pow_succ] at hhi
      exact hhi
    rw [BytesRead.loop, if_pos hge, hdiv,
      ih f (m / 1024) (div * 1024) (exp + 1) (by omega) hlo2 hhi2]
    simp only [Prod.mk.injEq]
    constructor
    · rw [pow_succ]; ring
    · omega

/-- A number below `2 ^ j` has at most `j` binary digits. -/
theorem bitLength_le : ∀ (fuel m j : Nat), m < 2 ^ j → bitLength fuel m ≤ j := by
  intro fuel
  induction fuel with
  | zero => intro m j _; simp [bitLength]
  | succ f ih =>
    intro m j h
    unfold bitLength
    split
    · omega
    · rename_i hm
      obtain ⟨i, rfl⟩ : ∃ i, j = i + 1 := by
        cases j with
        | zero => simp at h; exact absurd h hm
        | succ i => exact ⟨i, rfl⟩
      have hhalf : m / 2 < 2 ^ i := by
        rw [Nat.div_lt_iff_lt_mul (by norm_num)]
        rw [pow_succ] at h
        exact h
      have hrec := ih (m / 2) i hhalf
      omega

/-- Conversion to `float64` is exact below `2 ^ 53`. -/
theorem float64OfNat_exact (m : Nat) (h : m < 2 ^ 53) : float64OfNat m = m := by
  have hb := bitLength_le 64 m 53 h
  have he : bitLength 64 m - 53 = 0 := by omega
  simp [float64OfNat, he, roundHalfEven, Nat.mod_one]

/-- The value of `BytesRead` on a natural number `m` with
`1024 ^ k ≤ m < 1024 ^ (k + 1)` and `1 ≤ k ≤ 5`. -/
theorem BytesRead_of_range (m k : Nat) (hk : 1 ≤ k) (hk5 : k ≤ 5) (hlo : 1024 ^ k ≤ m)
    (hhi : m < 1024 ^ (k + 1)) :
    BytesRead (m : Int)
      = fmtFixed2 (float64OfNat m) (1024 ^ k) ++ suffixes.getD (k - 1) "KB" := by
  obtain ⟨j, rfl⟩ : ∃ j, k = j + 1 := ⟨k - 1, by omega⟩
  have h1024 : 1024 ≤ m := by
    have hp : 1024 ^ 1 ≤ 1024 ^ (j + 1) := Nat.pow_le_pow_right (by norm_num) (by omega)
    omega
  have hneg : ¬ ((m : Int) < 0) := by omega
  have hsmall : ¬ ((m : Int) < unit) := by
    simp only [unit]; omega
  have hdiv : Int.tdiv (m : Int) unit = ((m / 1024 : Nat) : Int) := rfl
  have hlo2 : 1024 ^ j ≤ m / 1024 := by
    rw [Nat.le_div_iff_mul_le (by norm_num)]
    rw [pow_succ] at hlo
    exact hlo
  have hhi2 : m / 1024 < 1024 ^ (j + 1) := by
    rw [Nat.div_lt_iff_lt_mul (by norm_num)]
    rw [pow_succ] at hhi
    exact hhi
  have hloop := BytesRead_loop_eq j 64 (m / 1024) 1024 0 (by omega) hlo2 hhi2
  have hlen : j < suffixes.length := by
    simp only [suffixes, List.length]; omega
  unfold BytesRead
  rw [if_neg hneg, if_neg hsmall, hdiv, hloop]
  simp only [Nat.zero_add, Int.toNat_ofNat, Nat.add_sub_cancel, if_pos hlen]
  congr 2
  rw [pow_succ]; ring

/-- C8 (as amended): below 1024, `BytesRead b` is the decimal numeral of `b`
followed by `B`.  For `1024 ≤ b < 1024 ^ 6`, with `k` the largest integer such
that `1024 ^ k ≤ b` (so `1 ≤ k ≤ 5`), it is `float64(b) / 1024 ^ k` printed with
two decimals followed by the `k`-th suffix of KB, MB, GB, TB, PB, where
`float64(b)` is `b` itself below `2 ^ 53`, so that there the printed quotient is
the exact one.  Hence `0B`, `1023B`, `1.00KB` and `1.00MB` for 0, 1023, 1024
and 1048576. -/
theorem BytesRead_scaled_below_exbibyte :
    (∀ b : Int, 0 ≤ b → b < 1024 → BytesRead b = Nat.repr b.toNat ++ "B") ∧
    (∀ (b : Int) (k : Nat), 1 ≤ k → k ≤ 5 → (1024 : Int) ^ k ≤ b → b < (1024 : Int) ^ (k + 1) →
      scaled b.toNat k = some (BytesRead b)) ∧
    (∀ (b : Int) (k : Nat), 0 ≤ b → b < 2 ^ 53 → scaledAsClaimed b.toNat k = scaled b.toNat k) ∧
    BytesRead 0 = "0B" ∧ BytesRead 1023 = "1023B" ∧ BytesRead 1024 = "1.00KB" ∧
    BytesRead 1048576 = "1.00MB" := by
  refine ⟨?_, ?_, ?_, by decide, by decide, by decide, by decide⟩
  · intro b h0 h1
    have hneg : ¬ (b < 0) := by omega
    have hsmall : b < unit := by
      simp only [unit]; omega
    have habs : b.natAbs = b.toNat := by omega
    unfold BytesRead
    rw [if_neg hneg, if_pos hsmall]
    unfold fmtInt
    rw [if_neg hneg, habs]
  · intro b k hk hk5 hlo hhi
    have h0 : 0 ≤ b := le_trans (by positivity) hlo
    obtain ⟨m, rfl⟩ : ∃ m : Nat, b = (m : Int) := ⟨b.toNat, by omega⟩
    have hlo2 : 1024 ^ k ≤ m := by exact_mod_cast hlo
    have hhi2 : m < 1024 ^ (k + 1) := by exact_mod_cast hhi
    have hlen : k - 1 < suffixes.length := by
      simp only [suffixes, List.length]; omega
    rw [BytesRead_of_range m k hk hk5 hlo2 hhi2]
    simp only [scaled, Int.toNat_ofNat]
    rw [List.getD_eq_getElem?_getD, List.get?_eq_getElem?, List.getElem?_eq_getElem hlen]
    simp
  · intro b k h0 h53
    have hm : b.toNat < 2 ^ 53 := by omega
    simp only [scaled, scaledAsClaimed, float64OfNat_exact b.toNat hm]

/-- C8, a concrete instance: 1536 lies between `1024 ^ 1` and `1024 ^ 2`, and
`BytesRead 1536` is `1.50KB`. -/
theorem BytesRead_scaled_below_exbibyte_witness :
    (1 ≤ 1 ∧ 1 ≤ 5 ∧ (1024 : Int) ^ 1 ≤ 1536 ∧ (1536 : Int) < (1024 : Int) ^ (1 + 1)) ∧
    scaled (1536 : Int).toNat 1 = some (BytesRead 1536) ∧ BytesRead 1536 = "1.50KB" :=
  ⟨by decide, BytesRead_scaled_below_exbibyte.2.1 1536 1 (by decide) (by decide) (by decide)
    (by decide), by decide⟩

/-- C8 (the claim as stated fails): at `b = 2 ^ 60` the largest `k` with
`1024 ^ k ≤ b` is 6, the table has no sixth suffix, and `BytesRead` prints
`1.00KB`; at `b = 9024087753343631` (above `2 ^ 53`, with `k = 5`) the exact
quotient prints as `8.01` but `BytesRead` prints `8.02PB`, because
`float64(b)` is `b + 1`. -/
theorem BytesRead_claim_fails :
    ((1024 : Int) ^ 6 ≤ 2 ^ 60 ∧ (2 : Int) ^ 60 < 1024 ^ 7) ∧
    scaledAsClaimed (2 ^ 60) 6 = none ∧
    BytesRead (2 ^ 60) = "1.00KB" ∧
    ((1024 : Int) ^ 5 ≤ 9024087753343631 ∧ (9024087753343631 : Int) < 1024 ^ 6) ∧
    scaledAsClaimed 9024087753343631 5 = some "8.01PB" ∧
    BytesRead 9024087753343631 = "8.02PB" ∧
    float64OfNat 9024087753343631 = 9024087753343632 := by
  decide

/-! ### Compression -/

/-- Deleting another key does not change what a key holds. -/
theorem lookup_filter_ne (k t : String) (h : k ≠ t) (l : List (String × List String)) :
    (l.filter (fun e => e.1 != t)).lookup k = l.lookup k := by
  induction l with
  | nil => rfl
  | cons e l ih =>
    obtain ⟨a, v⟩ := e
    by_cases hat : a = t
    · subst hat
      have hka : (k == a) = false := by simpa using h
      simp [List.filter, List.lookup, hka, ih]
    · have hne : (a != t) = true := by simpa using hat
      simp only [List.filter, hne, List.lookup]
      rw [ih]

/-- A deleted key holds nothing. -/
theorem lookup_filter_self (t : String) (l : List (String × List String)) :
    (l.filter (fun e => e.1 != t)).lookup t = none := by
  induction l with
  | nil => rfl
  | cons e l ih =>
    obtain ⟨a, v⟩ := e
    by_cases hat : a = t
    · subst hat
      simp [List.filter, ih]
    · have hne : (a != t) = true := by simpa using hat
      have hta : (t == a) = false := by
        simpa using (fun h : t = a => hat h.symm)
      simp only [List.filter, hne, List.lookup, hta]
      exact ih

/-- What the header map holds after the three changes of the compression branch. -/
theorem gzipHeaders_values (h : Header) :
    (gzipHeaders h).Get "Content-Encoding" = "gzip" ∧
    (gzipHeaders h).Values "Content-Length" = [] ∧
    (gzipHeaders h).Values "Vary" = h.Values "Vary" ++ ["Accept-Encoding"] ∧
    (∀ key, CanonicalMIMEHeaderKey key ≠ "Content-Encoding" →
        CanonicalMIMEHeaderKey key ≠ "Content-Length" → CanonicalMIMEHeaderKey key ≠ "Vary" →
        (gzipHeaders h).Values key = h.Values key) := by
  have k1 : CanonicalMIMEHeaderKey "Content-Encoding" = "Content-Encoding" := by decide
  have k2 : CanonicalMIMEHeaderKey "Content-Length" = "Content-Length" := by decide
  have k3 : CanonicalMIMEHeaderKey "Vary" = "Vary" := by decide
  refine ⟨?_, ?_, ?_, ?_⟩
  · simp [gzipHeaders, Header.Get, Header.Values, Header.Add, Header.Del, Header.Set, k1, k2, k3,
      List.lookup, List.filter]
  · simp only [gzipHeaders, Header.Values, Header.Add, Header.Del, Header.Set, k1, k2, k3,
      List.lookup]
    have e1 : ("Content-Length" == "Vary") = false := by decide
    simp only [e1]
    rw [lookup_filter_ne _ _ (by decide), lookup_filter_self]
    rfl
  · simp only [gzipHeaders, Header.Values, Header.Add, Header.Del, Header.Set, k1, k2, k3,
      List.lookup]
    have e1 : ("Vary" == "Vary") = true := by decide
    simp only [e1, Option.getD_some]
    congr 1
    rw [lookup_filter_ne _ _ (by decide)]
    have e2 : ("Vary" == "Content-Encoding") = false := by decide
    simp only [List.lookup, e2]
    rw [lookup_filter_ne _ _ (by decide)]
  · intro key n1 n2 n3
    simp only [gzipHeaders, Header.Values, Header.Add, Header.Del, Header.Set, k1, k2, k3]
    have e3 : (CanonicalMIMEHeaderKey key == "Vary") = false := by simpa using n3
    have e1 : (CanonicalMIMEHeaderKey key == "Content-Encoding") = false := by simpa using n1
    simp only [List.lookup, e3]
    rw [lookup_filter_ne _ _ n3, lookup_filter_ne _ _ n2]
    simp only [List.lookup, e1]
    rw [lookup_filter_ne _ _ n1]

/-- A content type is skipped exactly when, in lower case, it starts with an entry of `skips`. -/
theorem shouldSkipCompression_iff (ct : String) :
    shouldSkipCompression ct = true ↔ ∃ p ∈ skips, HasPrefix (ToLower ct) p = true := by
  by_cases h : ct = ""
  · subst h
    constructor
    · intro h; exact absurd h (by decide)
    · rintro ⟨p, hp, hpre⟩
      have hall : ∀ q ∈ skips, HasPrefix (ToLower "") q = false := by decide
      rw [hall p hp] at hpre
      exact absurd hpre (by decide)
  · unfold shouldSkipCompression
    rw [if_neg h]
    simp [List.any_eq_true]

/-- The bytes of two lists of calls put end to end. -/
theorem Call.bytes_append (a b : List Call) : Call.bytes (a ++ b) = Call.bytes a ++ Call.bytes b := by
  induction a with
  | nil => rfl
  | cons c a ih =>
    cases c with
    | WriteHeader s h => simpa [Call.bytes] using ih
    | Write p => simp [Call.bytes, ih]

/-- The bytes of a run of `Write` calls. -/
theorem Call.bytes_map_Write (cs : List Bytes) : Call.bytes (cs.map Call.Write) = cs.flatten := by
  induction cs with
  | nil => rfl
  | cons c cs ih => simp [Call.bytes, ih]

/-- The recording writer receives every piece, one `Write` call each, without error. -/
theorem writeChunks_recorder : ∀ (cs : List Bytes) (w : Recorder),
    writeChunks Recorder.writer cs w = (⟨w.header, w.calls ++ cs.map Call.Write⟩, none) := by
  intro cs
  induction cs with
  | nil => intro w; simp [writeChunks]
  | cons c cs ih =>
    intro w
    have hstep : Recorder.writer.Write w c
        = (⟨w.header, w.calls ++ [Call.Write c]⟩, (c.length : Int), none) := rfl
    simp only [writeChunks, hstep]
    rw [ih]
    simp

/-- What is emitted for two runs of writes made one after the other. -/
theorem emittedBy_append (chunks : List Bytes → Bytes → List Bytes) :
    ∀ (a hist b : List Bytes),
      emittedBy chunks hist (a ++ b)
        = emittedBy chunks hist a ++ emittedBy chunks (hist ++ a) b := by
  intro a
  induction a with
  | nil => intro hist b; simp [emittedBy]
  | cons p a ih =>
    intro hist b
    have hrec := ih (hist ++ [p]) b
    have hcons : p :: a ++ b = p :: (a ++ b) := rfl
    rw [hcons]
    simp only [emittedBy]
    rw [hrec]
    simp [List.append_assoc]

/-- The bytes written by a list of steps are its writes put end to end. -/
theorem payload_eq_flatten_writes : ∀ ops : List Op, payload ops = (writes ops).flatten := by
  intro ops
  induction ops with
  | nil => rfl
  | cons op ops ih =>
    cases op <;> simp [payload, writes, ih]

/-- The first `WriteHeader` on a fresh wrapper, excluded content type. -/
theorem WriteHeader_fresh_skip (w : Recorder) (status : Int)
    (h : shouldSkipCompression (w.header.Get "Content-Type") = true) :
    gzipResponseWriter.WriteHeader Recorder.writer (gzipResponseWriter.fresh w) status
      = { ResponseWriter := ⟨w.header, w.calls ++ [Call.WriteHeader status w.header]⟩,
          gz := none, compress := false, wroteHeader := true, status := status } := by
  simp [gzipResponseWriter.WriteHeader, gzipResponseWriter.fresh, Recorder.writer, h]

/-- The first `WriteHeader` on a fresh wrapper, content type not excluded. -/
theorem WriteHeader_fresh_compress (w : Recorder) (status : Int)
    (h : shouldSkipCompression (w.header.Get "Content-Type") = false) :
    gzipResponseWriter.WriteHeader Recorder.writer (gzipResponseWriter.fresh w) status
      = { ResponseWriter := ⟨gzipHeaders w.header,
            w.calls ++ [Call.WriteHeader status (gzipHeaders w.header)]⟩,
          gz := some ⟨[], false, none⟩, compress := true, wroteHeader := true,
          status := status } := by
  simp [gzipResponseWriter.WriteHeader, gzipResponseWriter.fresh, Recorder.writer, h,
    gzipHeaders, NewWriterLevel, DefaultCompression]

/-- A `Write` once compression is active goes to the `gzip.Writer`, which hands
its pieces for that write to the underlying writer. -/
theorem Write_committed_active (C : GzipCodec) (g : gzipResponseWriter Recorder)
    (ws : List Bytes) (closed : Bool) (b : Bytes)
    (hw : g.wroteHeader = true) (hc : g.compress = true) (hz : g.gz = some ⟨ws, closed, none⟩) :
    gzipResponseWriter.Write C Recorder.writer g b
      = ({ g with gz := some ⟨ws ++ [b], closed, none⟩,
                  ResponseWriter := ⟨g.ResponseWriter.header,
                    g.ResponseWriter.calls ++ (C.chunks ws b).map Call.Write⟩ },
          (b.length : Int), none) := by
  simp [gzipResponseWriter.Write, hw, hc, hz, gzipWriter.Write, writeChunks_recorder]

/-- A `Write` once the header is committed without compression goes to the underlying writer. -/
theorem Write_committed_passthrough (C : GzipCodec) (g : gzipResponseWriter Recorder) (b : Bytes)
    (hw : g.wroteHeader = true) (hz : g.active = false) :
    gzipResponseWriter.Write C Recorder.writer g b
      = ({ g with ResponseWriter :=
            { g.ResponseWriter with calls := g.ResponseWriter.calls ++ [Call.Write b] } },
          (b.length : Int), none) := by
  obtain ⟨inner, gz, compress, wrote, st⟩ := g
  simp only [gzipResponseWriter.active] at hz
  simp only at hw
  subst hw
  cases compress <;> cases gz <;> simp_all [gzipResponseWriter.Write, Recorder.writer]

/-- A `Write` on a fresh wrapper first commits the header with status 200. -/
theorem Write_fresh (C : GzipCodec) (w : Recorder) (b : Bytes) :
    gzipResponseWriter.Write C Recorder.writer (gzipResponseWriter.fresh w) b
      = gzipResponseWriter.Write C Recorder.writer
          (gzipResponseWriter.WriteHeader Recorder.writer (gzipResponseWriter.fresh w) StatusOK)
          b := by
  cases h : shouldSkipCompression (w.header.Get "Content-Type")
  · rw [WriteHeader_fresh_compress w StatusOK h]
    simp [gzipResponseWriter.Write, gzipResponseWriter.fresh,
      gzipResponseWriter.WriteHeader, h, Recorder.writer, NewWriterLevel, DefaultCompression,
      gzipHeaders]
  · rw [WriteHeader_fresh_skip w StatusOK h]
    simp [gzipResponseWriter.Write, gzipResponseWriter.fresh,
      gzipResponseWriter.WriteHeader, h, Recorder.writer]

/-- How `GzipMiddleware` decides, with the test of the code on `Accept-Encoding`.
It hands the wrapped handler the writer it received, unchanged, when the first
`Accept-Encoding` value does not contain `gzip` or the method is HEAD; otherwise
the handler runs against a fresh `gzipResponseWriter`, and at the first header
commit (`WriteHeader`, or the first `Write`, which commits with 200)
compression becomes active exactly when the `Content-Type` of the response at
that moment is not excluded.  When it becomes active the underlying writer
receives the status with a header map in which `Content-Encoding` is `gzip`,
`Content-Length` is gone and `Accept-Encoding` has been added to `Vary`, the
other keys being untouched, and a later write reaches the underlying writer as
the pieces the `gzip.Writer` emits for it; when it does not, the header map is
forwarded as it is and every later write reaches the underlying writer
unchanged.  Later `WriteHeader` calls are ignored.  A content type is excluded
exactly when, in lower case, it starts with an entry of `skips`;
`application/json` is not excluded. -/
theorem GzipMiddleware_gating_and_first_commit :
    (∀ (C : GzipCodec) (next : Handler) (σ ρ : Type) (W : ResponseWriter σ) (R : ReadCloser ρ)
        (w : σ) (body : Option ρ) (r : Request),
      acceptsGzip r = false ∨ r.Method = MethodHead →
      GzipMiddleware C next σ ρ W R w body r = next σ ρ W R w body r) ∧
    (∀ (C : GzipCodec) (next : Handler) (σ ρ : Type) (W : ResponseWriter σ) (R : ReadCloser ρ)
        (w : σ) (body : Option ρ) (r : Request),
      acceptsGzip r = true → r.Method ≠ MethodHead →
      GzipMiddleware C next σ ρ W R w body r
        = { w := (gzipResponseWriter.Close C W
                  (next (gzipResponseWriter σ) ρ (gzipResponseWriter.writer C W) R
                    (gzipResponseWriter.fresh w) body r).w).1.ResponseWriter,
            body := (next (gzipResponseWriter σ) ρ (gzipResponseWriter.writer C W) R
                    (gzipResponseWriter.fresh w) body r).body,
            logs := (next (gzipResponseWriter σ) ρ (gzipResponseWriter.writer C W) R
                    (gzipResponseWriter.fresh w) body r).logs,
            panicked := (next (gzipResponseWriter σ) ρ (gzipResponseWriter.writer C W) R
                    (gzipResponseWriter.fresh w) body r).panicked }) ∧
    (∀ (w : Recorder) (status : Int),
      ((gzipResponseWriter.WriteHeader Recorder.writer (gzipResponseWriter.fresh w) status).active
          = true ↔ shouldSkipCompression (w.header.Get "Content-Type") = false) ∧
      (shouldSkipCompression (w.header.Get "Content-Type") = false →
        (gzipResponseWriter.WriteHeader Recorder.writer (gzipResponseWriter.fresh w)
            status).ResponseWriter
          = ⟨gzipHeaders w.header, w.calls ++ [Call.WriteHeader status (gzipHeaders w.header)]⟩) ∧
      (shouldSkipCompression (w.header.Get "Content-Type") = true →
        (gzipResponseWriter.WriteHeader Recorder.writer (gzipResponseWriter.fresh w)
            status).ResponseWriter
          = ⟨w.header, w.calls ++ [Call.WriteHeader status w.header]⟩)) ∧
    (∀ (C : GzipCodec) (w : Recorder) (b : Bytes),
      gzipResponseWriter.Write C Recorder.writer (gzipResponseWriter.fresh w) b
        = gzipResponseWriter.Write C Recorder.writer
            (gzipResponseWriter.WriteHeader Recorder.writer (gzipResponseWriter.fresh w) StatusOK)
            b) ∧
    (∀ (C : GzipCodec) (g : gzipResponseWriter Recorder) (status : Int) (b : Bytes),
      g.wroteHeader = true →
      gzipResponseWriter.WriteHeader Recorder.writer g status = g ∧
      (g.active = false →
        (gzipResponseWriter.Write C Recorder.writer g b).1.ResponseWriter
          = ⟨g.ResponseWriter.header, g.ResponseWriter.calls ++ [Call.Write b]⟩) ∧
      (∀ (ws : List Bytes) (closed : Bool), g.compress = true →
        g.gz = some ⟨ws, closed, none⟩ →
        (gzipResponseWriter.Write C Recorder.writer g b).1.ResponseWriter
          = ⟨g.ResponseWriter.header,
              g.ResponseWriter.calls ++ (C.chunks ws b).map Call.Write⟩)) ∧
    (∀ h : Header,
      (gzipHeaders h).Get "Content-Encoding" = "gzip" ∧
      (gzipHeaders h).Values "Content-Length" = [] ∧
      (gzipHeaders h).Values "Vary" = h.Values "Vary" ++ ["Accept-Encoding"] ∧
      (∀ key, CanonicalMIMEHeaderKey key ≠ "Content-Encoding" →
        CanonicalMIMEHeaderKey key ≠ "Content-Length" → CanonicalMIMEHeaderKey key ≠ "Vary" →
        (gzipHeaders h).Values key = h.Values key)) ∧
    (∀ ct : String,
      shouldSkipCompression ct = true ↔ ∃ p ∈ skips, HasPrefix (ToLower ct) p = true) ∧
    shouldSkipCompression "application/json" = false ∧
    shouldSkipCompression "IMAGE/png" = true ∧
    shouldSkipCompression "Application/ZIP" = true := by
  refine ⟨?_, ?_, ?_, ?_, ?_, gzipHeaders_values, shouldSkipCompression_iff,
    by decide, by decide, by decide⟩
  · intro C next σ ρ W R w body r h
    rcases h with h | h
    · simp only [acceptsGzip] at h
      simp [GzipMiddleware, h]
    · by_cases ha : Contains (r.Header.Get "Accept-Encoding") "gzip" = true
      · simp [GzipMiddleware, ha, h]
      · simp [GzipMiddleware, ha]
  · intro C next σ ρ W R w body r ha hm
    simp only [acceptsGzip] at ha
    simp [GzipMiddleware, ha, hm, gzipResponseWriter.fresh]
  · intro w status
    refine ⟨?_, ?_, ?_⟩
    · cases h : shouldSkipCompression (w.header.Get "Content-Type")
      · rw [WriteHeader_fresh_compress w status h]
        simp [gzipResponseWriter.active]
      · rw [WriteHeader_fresh_skip w status h]
        simp [gzipResponseWriter.active]
    · intro h
      rw [WriteHeader_fresh_compress w status h]
    · intro h
      rw [WriteHeader_fresh_skip w status h]
  · intro C w b
    exact Write_fresh C w b
  · intro C g status b hw
    refine ⟨?_, ?_, ?_⟩
    · simp [gzipResponseWriter.WriteHeader, hw]
    · intro ha
      rw [Write_committed_passthrough C g b hw ha]
    · intro ws closed hc hz
      rw [Write_committed_active C g ws closed b hw hc hz]

/-- Once compression is active, every write of the handler goes through the
`gzip.Writer`: the underlying writer receives the pieces emitted for it, and
nothing else. -/
theorem runOps_active {ρ : Type} (C : GzipCodec) (R : ReadCloser ρ) :
    ∀ (ops : List Op) (g : gzipResponseWriter Recorder) (ws : List Bytes) (closed : Bool)
      (body : Option ρ),
      (∀ op ∈ ops, op.isResponseOp = true) → g.wroteHeader = true → g.compress = true →
      g.gz = some ⟨ws, closed, none⟩ →
      (runOps (gzipResponseWriter.writer C Recorder.writer) R ops g body).w.gz
          = some ⟨ws ++ writes ops, closed, none⟩ ∧
      Call.bytes
          (runOps (gzipResponseWriter.writer C Recorder.writer) R ops g
            body).w.ResponseWriter.calls
        = Call.bytes g.ResponseWriter.calls ++ emittedBy C.chunks ws (writes ops) := by
  intro ops
  induction ops with
  | nil =>
    intro g ws closed body _ _ _ hz
    simp [runOps, writes, emittedBy, hz]
  | cons op ops ih =>
    intro g ws closed body hops hw hc hz
    have hrest : ∀ o ∈ ops, o.isResponseOp = true := fun o ho => hops o (List.mem_cons_of_mem _ ho)
    have hop : op.isResponseOp = true := hops op (List.mem_cons_self _ _)
    cases op with
    | headerSet k v =>
      simp only [runOps, writes]
      exact ih _ ws closed body hrest hw hc hz
    | headerAdd k v =>
      simp only [runOps, writes]
      exact ih _ ws closed body hrest hw hc hz
    | headerDel k =>
      simp only [runOps, writes]
      exact ih _ ws closed body hrest hw hc hz
    | writeHeader s =>
      have hsame : (gzipResponseWriter.writer C Recorder.writer).WriteHeader g s = g := by
        simp [gzipResponseWriter.writer, gzipResponseWriter.WriteHeader, hw]
      simp only [runOps, writes, hsame]
      exact ih g ws closed body hrest hw hc hz
    | write b =>
      have hstep : (gzipResponseWriter.writer C Recorder.writer).Write g b
          = ({ g with gz := some ⟨ws ++ [b], closed, none⟩,
                      ResponseWriter := ⟨g.ResponseWriter.header,
                        g.ResponseWriter.calls ++ (C.chunks ws b).map Call.Write⟩ },
              (b.length : Int), none) :=
        Write_committed_active C g ws closed b hw hc hz
      simp only [runOps, writes, hstep]
      obtain ⟨h1, h2⟩ := ih
        { g with gz := some ⟨ws ++ [b], closed, none⟩,
                 ResponseWriter := ⟨g.ResponseWriter.header,
                   g.ResponseWriter.calls ++ (C.chunks ws b).map Call.Write⟩ }
        (ws ++ [b]) closed body hrest hw hc rfl
      refine ⟨by simpa [List.append_assoc] using h1, ?_⟩
      rw [h2]
      simp [Call.bytes_append, Call.bytes_map_Write, emittedBy, List.append_assoc]
    | read n => simp [Op.isResponseOp] at hop
    | closeBody => simp [Op.isResponseOp] at hop
    | panic v => simp [Op.isResponseOp] at hop

/-- Once the header is committed without compression, every write of the
handler reaches the underlying writer as it is. -/
theorem runOps_passthrough {ρ : Type} (C : GzipCodec) (R : ReadCloser ρ) :
    ∀ (ops : List Op) (g : gzipResponseWriter Recorder) (body : Option ρ),
      (∀ op ∈ ops, op.isResponseOp = true) → g.wroteHeader = true → g.gz = none →
      (runOps (gzipResponseWriter.writer C Recorder.writer) R ops g body).w.gz = none ∧
      Call.bytes
          (runOps (gzipResponseWriter.writer C Recorder.writer) R ops g
            body).w.ResponseWriter.calls
        = Call.bytes g.ResponseWriter.calls ++ payload ops := by
  intro ops
  induction ops with
  | nil =>
    intro g body _ _ hz
    simp [runOps, payload, hz]
  | cons op ops ih =>
    intro g body hops hw hz
    have hrest : ∀ o ∈ ops, o.isResponseOp = true := fun o ho => hops o (List.mem_cons_of_mem _ ho)
    have hop : op.isResponseOp = true := hops op (List.mem_cons_self _ _)
    cases op with
    | headerSet k v =>
      simp only [runOps, payload]
      exact ih _ body hrest hw hz
    | headerAdd k v =>
      simp only [runOps, payload]
      exact ih _ body hrest hw hz
    | headerDel k =>
      simp only [runOps, payload]
      exact ih _ body hrest hw hz
    | writeHeader s =>
      have hsame : (gzipResponseWriter.writer C Recorder.writer).WriteHeader g s = g := by
        simp [gzipResponseWriter.writer, gzipResponseWriter.WriteHeader, hw]
      simp only [runOps, payload, hsame]
      exact ih g body hrest hw hz
    | write b =>
      have hact : g.active = false := by simp [gzipResponseWriter.active, hz]
      have hstep : (gzipResponseWriter.writer C Recorder.writer).Write g b
          = ({ g with ResponseWriter :=
                { g.ResponseWriter with calls := g.ResponseWriter.calls ++ [Call.Write b] } },
              (b.length : Int), none) :=
        Write_committed_passthrough C g b hw hact
      simp only [runOps, payload, hstep]
      have := ih { g with ResponseWriter :=
          { g.ResponseWriter with calls := g.ResponseWriter.calls ++ [Call.Write b] } }
        body hrest hw hz
      simpa [Call.bytes_append, Call.bytes, List.append_assoc] using this
    | read n => simp [Op.isResponseOp] at hop
    | closeBody => simp [Op.isResponseOp] at hop
    | panic v => simp [Op.isResponseOp] at hop

/-- What a fresh wrapper has become after the steps of a handler: nothing has
reached the underlying writer if no step commits; otherwise the content type at
the first commit decides between compression, where the underlying writer has
received what the `gzip.Writer` emits for the writes made, and pass-through,
where it has received the bytes written. -/
theorem runOps_fresh {ρ : Type} (C : GzipCodec) (R : ReadCloser ρ) :
    ∀ (ops : List Op) (h : Header) (calls : List Call) (body : Option ρ),
      (∀ op ∈ ops, op.isResponseOp = true) →
      match headerAtCommit h ops with
      | none =>
        (runOps (gzipResponseWriter.writer C Recorder.writer) R ops
            (gzipResponseWriter.fresh ⟨h, calls⟩) body).w.gz = none ∧
        (runOps (gzipResponseWriter.writer C Recorder.writer) R ops
            (gzipResponseWriter.fresh ⟨h, calls⟩) body).w.ResponseWriter.calls = calls
      | some hc =>
        if shouldSkipCompression (hc.Get "Content-Type") = true then
          (runOps (gzipResponseWriter.writer C Recorder.writer) R ops
              (gzipResponseWriter.fresh ⟨h, calls⟩) body).w.gz = none ∧
          Call.bytes (runOps (gzipResponseWriter.writer C Recorder.writer) R ops
              (gzipResponseWriter.fresh ⟨h, calls⟩) body).w.ResponseWriter.calls
            = Call.bytes calls ++ payload ops
        else
          (runOps (gzipResponseWriter.writer C Recorder.writer) R ops
              (gzipResponseWriter.fresh ⟨h, calls⟩) body).w.gz
            = some ⟨writes ops, false, none⟩ ∧
          Call.bytes (runOps (gzipResponseWriter.writer C Recorder.writer) R ops
              (gzipResponseWriter.fresh ⟨h, calls⟩) body).w.ResponseWriter.calls
            = Call.bytes calls ++ emittedBy C.chunks [] (writes ops) := by
  intro ops
  induction ops with
  | nil =>
    intro h calls body _
    simp [headerAtCommit, runOps, gzipResponseWriter.fresh]
  | cons op ops ih =>
    intro h calls body hops
    have hrest : ∀ o ∈ ops, o.isResponseOp = true := fun o ho => hops o (List.mem_cons_of_mem _ ho)
    have hop : op.isResponseOp = true := hops op (List.mem_cons_self _ _)
    cases op with
    | headerSet k v =>
      simp only [headerAtCommit, runOps, payload, writes]
      exact ih (h.Set k v) calls body hrest
    | headerAdd k v =>
      simp only [headerAtCommit, runOps, payload, writes]
      exact ih (h.Add k v) calls body hrest
    | headerDel k =>
      simp only [headerAtCommit, runOps, payload, writes]
      exact ih (h.Del k) calls body hrest
    | writeHeader s =>
      simp only [headerAtCommit, runOps, payload, writes]
      have hW : (gzipResponseWriter.writer C Recorder.writer).WriteHeader
            (gzipResponseWriter.fresh ⟨h, calls⟩) s
          = gzipResponseWriter.WriteHeader Recorder.writer (gzipResponseWriter.fresh ⟨h, calls⟩) s :=
        rfl
      rw [hW]
      cases hskip : shouldSkipCompression (h.Get "Content-Type")
      · rw [WriteHeader_fresh_compress ⟨h, calls⟩ s hskip]
        obtain ⟨h1, h2⟩ := runOps_active C R ops
          { ResponseWriter := ⟨gzipHeaders h, calls ++ [Call.WriteHeader s (gzipHeaders h)]⟩,
            gz := some ⟨[], false, none⟩, compress := true, wroteHeader := true, status := s }
          [] false body hrest rfl rfl rfl
        refine ⟨by simpa using h1, ?_⟩
        rw [h2]
        simp [Call.bytes_append, Call.bytes]
      · rw [WriteHeader_fresh_skip ⟨h, calls⟩ s hskip]
        have := runOps_passthrough C R ops
          { ResponseWriter := ⟨h, calls ++ [Call.WriteHeader s h]⟩,
            gz := none, compress := false, wroteHeader := true, status := s }
          body hrest rfl rfl
        simpa [Call.bytes_append, Call.bytes] using this
    | write b =>
      simp only [headerAtCommit, runOps, payload, writes]
      have hW : (gzipResponseWriter.writer C Recorder.writer).Write
            (gzipResponseWriter.fresh ⟨h, calls⟩) b
          = gzipResponseWriter.Write C Recorder.writer
              (gzipResponseWriter.WriteHeader Recorder.writer
                (gzipResponseWriter.fresh ⟨h, calls⟩) StatusOK) b :=
        Write_fresh C ⟨h, calls⟩ b
      rw [hW]
      cases hskip : shouldSkipCompression (h.Get "Content-Type")
      · rw [WriteHeader_fresh_compress ⟨h, calls⟩ StatusOK hskip,
          Write_committed_active C _ [] false b rfl rfl rfl]
        obtain ⟨h1, h2⟩ := runOps_active C R ops
          { ResponseWriter :=
              ⟨gzipHeaders h, (calls ++ [Call.WriteHeader StatusOK (gzipHeaders h)]) ++
                (C.chunks [] b).map Call.Write⟩,
            gz := some ⟨[] ++ [b], false, none⟩, compress := true, wroteHeader := true,
            status := StatusOK }
          ([] ++ [b]) false body hrest rfl rfl rfl
        refine ⟨by simpa using h1, ?_⟩
        rw [h2]
        simp [Call.bytes_append, Call.bytes, Call.bytes_map_Write, emittedBy, List.append_assoc]
      · rw [WriteHeader_fresh_skip ⟨h, calls⟩ StatusOK hskip,
          Write_committed_passthrough C _ b rfl (by simp [gzipResponseWriter.active])]
        have := runOps_passthrough C R ops
          { ResponseWriter :=
              ⟨h, (calls ++ [Call.WriteHeader StatusOK h]) ++ [Call.Write b]⟩,
            gz := none, compress := false, wroteHeader := true, status := StatusOK }
          body hrest rfl rfl
        simpa [Call.bytes_append, Call.bytes, List.append_assoc] using this
    | read n => simp [Op.isResponseOp] at hop
    | closeBody => simp [Op.isResponseOp] at hop
    | panic v => simp [Op.isResponseOp] at hop

/-- C10 (as amended): for a request that declares gzip with a method other than
HEAD, and for every sequence of header mutations, `WriteHeader` and `Write`
calls of the wrapped handler in which the header is committed at least once
(by a `WriteHeader` or by a `Write`, be it of zero bytes): with a content type
that is not excluded at that first commit, the bytes the underlying writer has
received once `GzipMiddleware` returns decode to exactly the concatenation of
the writes, in order; with an excluded content type the underlying writer has
received exactly those bytes.  When the handler never commits the header, the
underlying writer has received no call. -/
theorem GzipMiddleware_roundtrip (C : GzipCodec) (r : Request) (h0 : Header)
    (body : Option ChunkedBody) (ops : List Op)
    (haccept : acceptsGzip r = true) (hmethod : r.Method ≠ MethodHead)
    (hops : ∀ op ∈ ops, op.isResponseOp = true) :
    match headerAtCommit h0 ops with
    | some hc =>
      if shouldSkipCompression (hc.Get "Content-Type") = true then
        (serve (GzipMiddleware C (scripted (fun _ => ops))) ⟨h0, []⟩ body r).w.body = payload ops
      else
        C.decode (serve (GzipMiddleware C (scripted (fun _ => ops))) ⟨h0, []⟩ body r).w.body
          = some (payload ops)
    | none => (serve (GzipMiddleware C (scripted (fun _ => ops))) ⟨h0, []⟩ body r).w.calls = [] := by
  have hrun := runOps_fresh C ChunkedBody.reader ops h0 [] body hops
  have hacc : Contains (r.Header.Get "Accept-Encoding") "gzip" = true := haccept
  have hserve : (serve (GzipMiddleware C (scripted (fun _ => ops))) ⟨h0, []⟩ body r).w
      = (gzipResponseWriter.Close C Recorder.writer
          (runOps (gzipResponseWriter.writer C Recorder.writer) ChunkedBody.reader ops
            (gzipResponseWriter.fresh ⟨h0, []⟩) body).w).1.ResponseWriter := by
    simp [serve, GzipMiddleware, hacc, hmethod, scripted, gzipResponseWriter.fresh]
  rw [hserve]
  generalize (runOps (gzipResponseWriter.writer C Recorder.writer) ChunkedBody.reader ops
    (gzipResponseWriter.fresh ⟨h0, []⟩) body).w = g at hrun
  obtain ⟨inner, gz, compress, wrote, st⟩ := g
  cases hcommit : headerAtCommit h0 ops with
  | none =>
    rw [hcommit] at hrun
    obtain ⟨hgz, hcalls⟩ := hrun
    simp only at hgz hcalls
    subst hgz
    simpa [gzipResponseWriter.Close] using hcalls
  | some hc =>
    rw [hcommit] at hrun
    by_cases hskip : shouldSkipCompression (hc.Get "Content-Type") = true
    · simp only [hskip, if_true] at hrun ⊢
      obtain ⟨hgz, hbytes⟩ := hrun
      subst hgz
      simpa [gzipResponseWriter.Close, Recorder.body, Call.bytes] using hbytes
    · simp only [hskip, if_false] at hrun ⊢
      obtain ⟨hgz, hbytes⟩ := hrun
      subst hgz
      have hbody : Recorder.body (gzipResponseWriter.Close C Recorder.writer
          { ResponseWriter := inner, gz := some ⟨writes ops, false, none⟩, compress := compress,
            wroteHeader := wrote, status := st }).1.ResponseWriter
          = emittedBy C.chunks [] (writes ops) ++ (C.closeChunks (writes ops)).flatten := by
        simp [gzipResponseWriter.Close, gzipWriter.Close, writeChunks_recorder, Recorder.body,
          Call.bytes_append, Call.bytes_map_Write, Call.bytes, hbytes]
      rw [hbody, payload_eq_flatten_writes]
      exact C.decode_stream (writes ops)

/-- C10, a concrete instance: a `text/plain` response written in two pieces
decodes to the two pieces put together. -/
theorem GzipMiddleware_roundtrip_witness :
    (acceptsGzip gzipRequest = true ∧ gzipRequest.Method ≠ MethodHead ∧
      (∀ op ∈ [Op.headerSet "Content-Type" "text/plain", Op.write [104, 105], Op.write [33]],
        op.isResponseOp = true)) ∧
    GzipCodec.framed.decode
        (serve (GzipMiddleware GzipCodec.framed (scripted (fun _ =>
          [Op.headerSet "Content-Type" "text/plain", Op.write [104, 105], Op.write [33]])))
          ⟨⟨[]⟩, []⟩ none gzipRequest).w.body
      = some [104, 105, 33] :=
  ⟨⟨by decide, by decide, by decide⟩,
    GzipMiddleware_roundtrip GzipCodec.framed gzipRequest ⟨[]⟩ none
      [Op.headerSet "Content-Type" "text/plain", Op.write [104, 105], Op.write [33]]
      (by decide) (by decide) (by decide)⟩

/-- C10 (the claim as stated fails): a handler that sets `Content-Type:
text/plain` and returns without `WriteHeader` or `Write` has written the empty
sequence of bytes, yet the underlying writer has received no call at all, and
no bytes are not a gzip stream: for every codec they fail to decode. -/
theorem GzipMiddleware_no_commit_no_stream :
    acceptsGzip gzipRequest = true ∧ gzipRequest.Method ≠ MethodHead ∧
    payload [Op.headerSet "Content-Type" "text/plain"] = [] ∧
    shouldSkipCompression "text/plain" = false ∧
    (∀ C : GzipCodec,
      (serve (GzipMiddleware C (scripted (fun _ => [Op.headerSet "Content-Type" "text/plain"])))
          Recorder.new none gzipRequest).w
        = ⟨(Header.mk []).Set "Content-Type" "text/plain", []⟩ ∧
      C.decode (serve (GzipMiddleware C (scripted (fun _ =>
          [Op.headerSet "Content-Type" "text/plain"]))) Recorder.new none gzipRequest).w.body
        ≠ some (payload [Op.headerSet "Content-Type" "text/plain"])) := by
  refine ⟨by decide, by decide, by decide, by decide, ?_⟩
  intro C
  have hw : (serve (GzipMiddleware C (scripted (fun _ =>
      [Op.headerSet "Content-Type" "text/plain"]))) Recorder.new none gzipRequest).w
      = ⟨(Header.mk []).Set "Content-Type" "text/plain", []⟩ := rfl
  refine ⟨hw, ?_⟩
  rw [hw]
  have hnil : Recorder.body ⟨(Header.mk []).Set "Content-Type" "text/plain", []⟩ = [] := rfl
  rw [hnil, C.decode_nil]
  exact fun h => Option.noConfusion h

/-- The answer of `GzipMiddleware` around `plainHi` to the request that refuses
gzip, for any codec: the status goes out with the compression headers and the
body goes out as the pieces of the `gzip.Writer`. -/
theorem GzipMiddleware_refused_request_outcome (C : GzipCodec) :
    (serve (GzipMiddleware C plainHi) Recorder.new none refusesGzipRequest).w
      = ⟨gzipHeaders ((Header.mk []).Set "Content-Type" "text/plain"),
          [Call.WriteHeader 200 (gzipHeaders ((Header.mk []).Set "Content-Type" "text/plain"))] ++
            (C.chunks [] (utf8 "hi")).map Call.Write ++
            (C.closeChunks [utf8 "hi"]).map Call.Write⟩ := by
  have ha : Contains (refusesGzipRequest.Header.Get "Accept-Encoding") "gzip" = true := by decide
  have hm : refusesGzipRequest.Method ≠ MethodHead := by decide
  have hskip : shouldSkipCompression
      ((Recorder.mk ((Header.mk []).Set "Content-Type" "text/plain") []).header.Get
        "Content-Type") = false := by decide
  have hW := Write_fresh C (Recorder.mk ((Header.mk []).Set "Content-Type" "text/plain") [])
    (utf8 "hi")
  rw [WriteHeader_fresh_compress _ StatusOK hskip,
    Write_committed_active C
      { ResponseWriter := ⟨gzipHeaders ((Header.mk []).Set "Content-Type" "text/plain"),
          [] ++ [Call.WriteHeader StatusOK
            (gzipHeaders ((Header.mk []).Set "Content-Type" "text/plain"))]⟩,
        gz := some ⟨[], false, none⟩, compress := true, wroteHeader := true,
        status := StatusOK }
      [] false (utf8 "hi") rfl rfl rfl] at hW
  simp only [serve, GzipMiddleware, ha, hm, plainHi, scripted, runOps, Bool.not_true,
    Bool.false_eq_true, if_false]
  have hstate : (gzipResponseWriter.writer C Recorder.writer).setHeader
      { ResponseWriter := Recorder.new, gz := none, compress := true, wroteHeader := false,
        status := 0 }
      (((gzipResponseWriter.writer C Recorder.writer).Header
        { ResponseWriter := Recorder.new, gz := none, compress := true, wroteHeader := false,
          status := 0 }).Set "Content-Type" "text/plain")
      = gzipResponseWriter.fresh (Recorder.mk ((Header.mk []).Set "Content-Type" "text/plain") []) :=
    rfl
  rw [hstate]
  have hWr : (gzipResponseWriter.writer C Recorder.writer).Write
      (gzipResponseWriter.fresh (Recorder.mk ((Header.mk []).Set "Content-Type" "text/plain") []))
      (utf8 "hi")
      = gzipResponseWriter.Write C Recorder.writer
        (gzipResponseWriter.fresh (Recorder.mk ((Header.mk []).Set "Content-Type" "text/plain") []))
        (utf8 "hi") := rfl
  rw [hWr, hW]
  simp [gzipResponseWriter.Close, gzipWriter.Close, writeChunks_recorder, StatusOK]

/-- C9 (the code departs from it): `GzipMiddleware` tests `Accept-Encoding`
with `strings.Contains` on its first value.  A request that refuses gzip with
`Accept-Encoding: deflate, gzip;q=0` gets a `text/plain` answer with
`Content-Encoding: gzip` and the body passed through the compressor, though the
comment above the test says that compression is only for a client that accepts
gzip; a request that accepts it as `GZIP`, or in a second `Accept-Encoding`
line, gets the answer uncompressed. -/
theorem GzipMiddleware_compresses_when_gzip_refused :
    (∀ C : GzipCodec,
      (serve (GzipMiddleware C plainHi) Recorder.new none refusesGzipRequest).w
        = ⟨gzipHeaders ((Header.mk []).Set "Content-Type" "text/plain"),
            [Call.WriteHeader 200 (gzipHeaders ((Header.mk []).Set "Content-Type" "text/plain"))]
              ++ (C.chunks [] (utf8 "hi")).map Call.Write
              ++ (C.closeChunks [utf8 "hi"]).map Call.Write⟩) ∧
    (gzipHeaders ((Header.mk []).Set "Content-Type" "text/plain")).Get "Content-Encoding"
      = "gzip" ∧
    refusesGzipRequest.Header.Get "Accept-Encoding" = "deflate, gzip;q=0" ∧
    acceptsGzip refusesGzipRequest = true ∧
    (serve (GzipMiddleware GzipCodec.framed plainHi) Recorder.new none
        refusesGzipRequest).w.header.Get "Content-Encoding" = "gzip" ∧
    (serve (GzipMiddleware GzipCodec.framed plainHi) Recorder.new none
        refusesGzipRequest).w.body = GzipCodec.framed.stream [utf8 "hi"] ∧
    (serve (GzipMiddleware GzipCodec.framed plainHi) Recorder.new none
        refusesGzipRequest).w.body ≠ utf8 "hi" ∧
    acceptsGzip upperCaseGzipRequest = false ∧
    (serve (GzipMiddleware GzipCodec.framed plainHi) Recorder.new none
        upperCaseGzipRequest).w.header.Get "Content-Encoding" = "" ∧
    (serve (GzipMiddleware GzipCodec.framed plainHi) Recorder.new none
        upperCaseGzipRequest).w.body = utf8 "hi" ∧
    secondLineGzipRequest.Header.Values "Accept-Encoding" = ["deflate", "gzip"] ∧
    acceptsGzip secondLineGzipRequest = false ∧
    (serve (GzipMiddleware GzipCodec.framed plainHi) Recorder.new none
        secondLineGzipRequest).w.body = utf8 "hi" := by
  refine ⟨GzipMiddleware_refused_request_outcome, ?_⟩
  decide

/-! ### Panic containment and metering -/

/-- The call of `http.Error` on the recording writer: one `WriteHeader` with the
code, after the three header changes, and one `Write` of the text followed by a
newline. -/
theorem httpError_recorder (w : Recorder) (text : String) (code : Int) :
    httpError Recorder.writer w text code
      = ⟨errorHeaders w.header,
          w.calls ++ [Call.WriteHeader code (errorHeaders w.header),
            Call.Write (utf8 (text ++ "\n"))]⟩ := by
  simp [httpError, Recorder.writer, errorHeaders]

/-- The first commit decides the status: calls appended after a commit do not
change it. -/
theorem Call.status_append (a b : List Call) (h : a ≠ []) :
    Call.status (a ++ b) = Call.status a := by
  cases a with
  | nil => exact absurd rfl h
  | cons c a => cases c <;> rfl

/-- C11 (as amended): `Recover` never lets a panic of the wrapped handler
through.  If the handler returns without a panic, the result of `Recover` is
exactly the result of the handler.  If it panics with the value `v`, `Recover`
returns normally after one call of `http.Error`: on top of the calls the
handler made, the writer receives one `WriteHeader(500)` and one `Write` of the
summary `server panicked with error: v` followed by a newline, and one error
record is logged with the request identifier and `v`.  When the handler had
made no call on the writer before it panicked, the response has status 500 and
its body is the summary followed by a newline. -/
theorem Recover_contains_panic :
    (∀ (next : Handler) (σ ρ : Type) (W : ResponseWriter σ) (R : ReadCloser ρ) (w : σ)
        (body : Option ρ) (r : Request),
      (Recover next σ ρ W R w body r).panicked = none) ∧
    (∀ (next : Handler) (σ ρ : Type) (W : ResponseWriter σ) (R : ReadCloser ρ) (w : σ)
        (body : Option ρ) (r : Request),
      (next σ ρ W R w body r).panicked = none →
      Recover next σ ρ W R w body r = next σ ρ W R w body r) ∧
    (∀ (next : Handler) (w : Recorder) (body : Option ChunkedBody) (r : Request) (v : String),
      (serve next w body r).panicked = some v →
      (serve (Recover next) w body r).w.calls
        = (serve next w body r).w.calls ++
            [Call.WriteHeader StatusInternalServerError
              (errorHeaders (serve next w body r).w.header),
             Call.Write (utf8 (panicSummary v ++ "\n"))] ∧
      (serve (Recover next) w body r).body = (serve next w body r).body ∧
      (serve (Recover next) w body r).logs
        = (serve next w body r).logs ++
            [⟨Level.error, "server panic recovered",
              [Attr.str "id" (GetRequestID r.ctx), Attr.any "error" v]⟩]) ∧
    (∀ (next : Handler) (w : Recorder) (body : Option ChunkedBody) (r : Request) (v : String),
      (serve next w body r).panicked = some v → (serve next w body r).w.calls = [] →
      (serve (Recover next) w body r).w.status = some StatusInternalServerError ∧
      (serve (Recover next) w body r).w.body = utf8 (panicSummary v ++ "\n")) := by
  refine ⟨?_, ?_, ?_, ?_⟩
  · intro next σ ρ W R w body r
    unfold Recover
    cases h : (next σ ρ W R w body r).panicked with
    | none => simp only [h]
    | some v => simp only [h]
  · intro next σ ρ W R w body r h
    unfold Recover
    simp only [h]
  · intro next w body r v h
    have hrec : serve (Recover next) w body r
        = { w := httpError Recorder.writer (serve next w body r).w (panicSummary v)
                  StatusInternalServerError,
            body := (serve next w body r).body,
            logs := (serve next w body r).logs ++
              [⟨Level.error, "server panic recovered",
                [Attr.str "id" (GetRequestID r.ctx), Attr.any "error" v]⟩],
            panicked := none } := by
      unfold serve at h ⊢
      unfold Recover
      simp only [h, panicSummary]
    rw [hrec, httpError_recorder]
    exact ⟨rfl, rfl, rfl⟩
  · intro next w body r v h hc
    have hrec : (serve (Recover next) w body r).w
        = httpError Recorder.writer (serve next w body r).w (panicSummary v)
            StatusInternalServerError := by
      unfold serve at h ⊢
      unfold Recover
      simp only [h, panicSummary]
    rw [hrec, httpError_recorder, hc]
    exact ⟨rfl, by simp [Recorder.body, Call.bytes]⟩


/-- One `Read` through the counter: the pair returned and the new state of the
underlying reader are those of the underlying `Read`, and the total grows by
the `n` returned. -/
theorem countReadCloser_Read_eq {ρ : Type} (R : ReadCloser ρ) (c : countReadCloser ρ) (p : Nat) :
    (countReadCloser.Read R c p).2 = (R.Read c.rc p).2 ∧
    (countReadCloser.Read R c p).1.rc = (R.Read c.rc p).1 ∧
    (countReadCloser.Read R c p).1.n = c.n + (R.Read c.rc p).2.1 := by
  simp [countReadCloser.Read]

/-- One `Write` through the counter: the pair returned and the new state of the
underlying writer are those of the underlying `Write`, and the total grows by
the `n` returned. -/
theorem countingResponseWriter_Write_eq {σ : Type} (W : ResponseWriter σ)
    (w : countingResponseWriter σ) (b : Bytes) :
    (countingResponseWriter.Write W w b).2 = (W.Write w.ResponseWriter b).2 ∧
    (countingResponseWriter.Write W w b).1.ResponseWriter = (W.Write w.ResponseWriter b).1 ∧
    (countingResponseWriter.Write W w b).1.n = w.n + (W.Write w.ResponseWriter b).2.1 := by
  simp [countingResponseWriter.Write]

/-- A sequence of reads through the counter. -/
theorem readAll_counted {ρ : Type} (R : ReadCloser ρ) :
    ∀ (ps : List Nat) (c : countReadCloser ρ),
      (readAll (countReadCloser.reader R) ps c).2 = (readAll R ps c.rc).2 ∧
      (readAll (countReadCloser.reader R) ps c).1.rc = (readAll R ps c.rc).1 ∧
      (readAll (countReadCloser.reader R) ps c).1.n = c.n + sumN (readAll R ps c.rc).2 := by
  intro ps
  induction ps with
  | nil => intro c; simp [readAll, sumN]
  | cons p ps ih =>
    intro c
    obtain ⟨h1, h2, h3⟩ := countReadCloser_Read_eq R c p
    have hstep : (countReadCloser.reader R).Read c p = countReadCloser.Read R c p := rfl
    obtain ⟨i1, i2, i3⟩ := ih (countReadCloser.Read R c p).1
    simp only [readAll, hstep]
    rw [h2] at i1 i2 i3
    refine ⟨by rw [h1, i1], i2, ?_⟩
    rw [i3, h3]
    cases hr : (R.Read c.rc p).2 with
    | mk n err => simp [sumN, hr]; ring

/-- A sequence of writes through the counter. -/
theorem writeAll_counted {σ : Type} (W : ResponseWriter σ) :
    ∀ (bs : List Bytes) (w : countingResponseWriter σ),
      (writeAll (countingResponseWriter.writer W) bs w).2 = (writeAll W bs w.ResponseWriter).2 ∧
      (writeAll (countingResponseWriter.writer W) bs w).1.ResponseWriter
        = (writeAll W bs w.ResponseWriter).1 ∧
      (writeAll (countingResponseWriter.writer W) bs w).1.n
        = w.n + sumN (writeAll W bs w.ResponseWriter).2 := by
  intro bs
  induction bs with
  | nil => intro w; simp [writeAll, sumN]
  | cons b bs ih =>
    intro w
    obtain ⟨h1, h2, h3⟩ := countingResponseWriter_Write_eq W w b
    have hstep : (countingResponseWriter.writer W).Write w b = countingResponseWriter.Write W w b :=
      rfl
    obtain ⟨i1, i2, i3⟩ := ih (countingResponseWriter.Write W w b).1
    simp only [writeAll, hstep]
    rw [h2] at i1 i2 i3
    refine ⟨by rw [h1, i1], i2, ?_⟩
    rw [i3, h3]
    cases hr : (W.Write w.ResponseWriter b).2 with
    | mk n err => simp [sumN, hr]; ring

/-- The recording writer takes every write in full. -/
theorem writeAll_recorder : ∀ (bs : List Bytes) (w : Recorder),
    sumN (writeAll Recorder.writer bs w).2 = (totalSize bs : Int) ∧
    (writeAll Recorder.writer bs w).1.body = w.body ++ bs.flatten := by
  intro bs
  induction bs with
  | nil => intro w; simp [writeAll, sumN, totalSize]
  | cons b bs ih =>
    intro w
    obtain ⟨i1, i2⟩ := ih (Recorder.writer.Write w b).1
    simp only [writeAll, sumN, totalSize]
    refine ⟨?_, ?_⟩
    · rw [i1]
      simp [Recorder.writer]
    · rw [i2]
      simp [Recorder.writer, Recorder.body, Call.bytes_append, Call.bytes]

/-- What partial reads take from a chunked body is what they return. -/
theorem readAll_chunked : ∀ (ps : List Nat) (body : ChunkedBody),
    sumN (readAll ChunkedBody.reader ps body).2
      = (body.remaining : Int) - ((readAll ChunkedBody.reader ps body).1.remaining : Int) := by
  intro ps
  induction ps with
  | nil => intro body; simp [readAll, sumN]
  | cons p ps ih =>
    intro body
    simp only [readAll, sumN]
    rw [ih]
    by_cases h0 : body.remaining = 0
    · simp [ChunkedBody.reader, h0]
    · simp only [ChunkedBody.reader, h0, if_false]
      have hle : min (min p body.chunk) body.remaining ≤ body.remaining := Nat.min_le_right _ _
      omega


/-- C11, a concrete instance: a handler that panics with `boom` before writing
anything leaves a response with status 500 whose body is the summary line. -/
theorem Recover_contains_panic_witness :
    ((serve (scripted (fun _ => [Op.panic "boom"])) Recorder.new none sampleRequest).panicked
        = some "boom" ∧
      (serve (scripted (fun _ => [Op.panic "boom"])) Recorder.new none sampleRequest).w.calls
        = []) ∧
    (serve (Recover (scripted (fun _ => [Op.panic "boom"]))) Recorder.new none
        sampleRequest).w.status = some StatusInternalServerError ∧
    (serve (Recover (scripted (fun _ => [Op.panic "boom"]))) Recorder.new none
        sampleRequest).w.body = utf8 (panicSummary "boom" ++ "\n") :=
  ⟨⟨by decide, by decide⟩,
    Recover_contains_panic.2.2.2 (scripted (fun _ => [Op.panic "boom"])) Recorder.new none
      sampleRequest "boom" (by decide) (by decide)⟩

/-- C11 (the claim as stated fails): for a handler that writes `hi` and then
panics with `boom`, the response has status 200, committed by that write, and
its body is `hi` followed by the summary line, so it is not a response with
status 500 whose body is the summary; and for a handler that panics at once, the
body is the summary followed by a newline, not the summary alone. -/
theorem Recover_after_write_response_not_500 :
    (serve (scripted (fun _ => [Op.write (utf8 "hi"), Op.panic "boom"])) Recorder.new none
        sampleRequest).panicked = some "boom" ∧
    (serve (Recover (scripted (fun _ => [Op.write (utf8 "hi"), Op.panic "boom"]))) Recorder.new
        none sampleRequest).w.status = some 200 ∧
    (serve (Recover (scripted (fun _ => [Op.write (utf8 "hi"), Op.panic "boom"]))) Recorder.new
        none sampleRequest).w.body = utf8 "hi" ++ utf8 "server panicked with error: boom\n" ∧
    (serve (Recover (scripted (fun _ => [Op.write (utf8 "hi"), Op.panic "boom"]))) Recorder.new
        none sampleRequest).w.body ≠ utf8 "server panicked with error: boom" ∧
    (serve (Recover (scripted (fun _ => [Op.panic "boom"]))) Recorder.new none
        sampleRequest).w.body = utf8 "server panicked with error: boom\n" ∧
    (serve (Recover (scripted (fun _ => [Op.panic "boom"]))) Recorder.new none
        sampleRequest).w.body ≠ utf8 "server panicked with error: boom" := by
  decide

/-- C12: the metering wrappers are transparent and count exactly.  Each `Read`
on a `countReadCloser` and each `Write` on a `countingResponseWriter` returns
the pair `(n, err)` of the underlying call and leaves the underlying object in
the state the underlying call leaves it in; `Close` returns the underlying
error and leaves the total as it is; after any sequence of reads, or of writes,
the pairs returned are those the underlying reader or writer returns for the
same sequence, and the total is the total before plus the sum of the `n`
returned.  Hence writing byte strings of total size `S` to a writer that takes
them in full counts `S`, and partial reads of a body of `R` bytes count what
has been taken from it, `R` once nothing remains. -/
theorem metering_wrappers_exact_and_transparent :
    (∀ (ρ : Type) (R : ReadCloser ρ) (c : countReadCloser ρ) (p : Nat),
      (countReadCloser.Read R c p).2 = (R.Read c.rc p).2 ∧
      (countReadCloser.Read R c p).1.rc = (R.Read c.rc p).1 ∧
      (countReadCloser.Read R c p).1.n = c.n + (R.Read c.rc p).2.1) ∧
    (∀ (ρ : Type) (R : ReadCloser ρ) (c : countReadCloser ρ),
      (countReadCloser.Close R c).2 = (R.Close c.rc).2 ∧
      (countReadCloser.Close R c).1.rc = (R.Close c.rc).1 ∧
      (countReadCloser.Close R c).1.n = c.n) ∧
    (∀ (σ : Type) (W : ResponseWriter σ) (w : countingResponseWriter σ) (b : Bytes),
      (countingResponseWriter.Write W w b).2 = (W.Write w.ResponseWriter b).2 ∧
      (countingResponseWriter.Write W w b).1.ResponseWriter = (W.Write w.ResponseWriter b).1 ∧
      (countingResponseWriter.Write W w b).1.n = w.n + (W.Write w.ResponseWriter b).2.1) ∧
    (∀ (ρ : Type) (R : ReadCloser ρ) (ps : List Nat) (c : countReadCloser ρ),
      (readAll (countReadCloser.reader R) ps c).2 = (readAll R ps c.rc).2 ∧
      (readAll (countReadCloser.reader R) ps c).1.rc = (readAll R ps c.rc).1 ∧
      (readAll (countReadCloser.reader R) ps c).1.n = c.n + sumN (readAll R ps c.rc).2) ∧
    (∀ (σ : Type) (W : ResponseWriter σ) (bs : List Bytes) (w : countingResponseWriter σ),
      (writeAll (countingResponseWriter.writer W) bs w).2 = (writeAll W bs w.ResponseWriter).2 ∧
      (writeAll (countingResponseWriter.writer W) bs w).1.ResponseWriter
        = (writeAll W bs w.ResponseWriter).1 ∧
      (writeAll (countingResponseWriter.writer W) bs w).1.n
        = w.n + sumN (writeAll W bs w.ResponseWriter).2) ∧
    (∀ (bs : List Bytes) (w : Recorder),
      (writeAll (countingResponseWriter.writer Recorder.writer) bs ⟨w, 0, 0⟩).1.n
        = (totalSize bs : Int) ∧
      (writeAll (countingResponseWriter.writer Recorder.writer) bs ⟨w, 0, 0⟩).1.ResponseWriter.body
        = w.body ++ bs.flatten) ∧
    (∀ (ps : List Nat) (body : ChunkedBody),
      (readAll (countReadCloser.reader ChunkedBody.reader) ps ⟨body, 0⟩).1.n
        = (body.remaining : Int)
          - ((readAll (countReadCloser.reader ChunkedBody.reader) ps ⟨body, 0⟩).1.rc.remaining
              : Int)) ∧
    ((readAll (countReadCloser.reader ChunkedBody.reader) [4, 4, 4, 4] ⟨⟨7, 3⟩, 0⟩).1.n = 7 ∧
      (readAll (countReadCloser.reader ChunkedBody.reader) [4, 4, 4, 4] ⟨⟨7, 3⟩, 0⟩).2
        = [(3, none), (3, none), (1, none), (0, some EOF)]) := by
  refine ⟨fun ρ R c p => countReadCloser_Read_eq R c p, ?_,
    fun σ W w b => countingResponseWriter_Write_eq W w b,
    fun ρ R ps c => readAll_counted R ps c,
    fun σ W bs w => writeAll_counted W bs w, ?_, ?_, by decide⟩
  · intro ρ R c
    simp [countReadCloser.Close]
  · intro bs w
    obtain ⟨h1, h2, h3⟩ := writeAll_counted Recorder.writer bs ⟨w, 0, 0⟩
    obtain ⟨r1, r2⟩ := writeAll_recorder bs w
    refine ⟨?_, ?_⟩
    · rw [h3, r1]; simp
    · rw [h2, r2]
  · intro ps body
    obtain ⟨h1, h2, h3⟩ := readAll_counted ChunkedBody.reader ps ⟨body, 0⟩
    rw [h3, h2, readAll_chunked]
    simp

end TaskManager
